import Mathlib

/-!
Verification development for the FileGenius repository (local file organizer).

Shallow embedding of the core of the repository:
  * `database_manager.py` — the SQLite tracking store (`files` table), duplicate
    lookup, undo engine;
  * `file_organizer.py` — the organize engine (categorization, date folders,
    collision renaming, duplicate handling, move loop) and the CLI wiring of
    `main` that is relevant to the claims;
  * `learning_engine.py` — the frequency model and `predict_destination`.

Modelling conventions:
  * A filesystem path is its list of components (`Path := List String`); the
    filesystem is the list of paths of the files that exist (`FS`), treated as
    a finite set (real filesystems have no duplicate paths, which theorems
    state as a `Nodup` hypothesis where needed).
  * Moving/deleting a file is explicit list surgery (`fsMove`, `fsRemove`).
  * The SQLite store is a record list in insertion order plus an id counter
    and a clock; `operation_date` is modelled by the strictly increasing
    clock (insert timestamps are strictly monotone), so `ORDER BY
    operation_date` is insertion order.
  * `compute_file_hash` either returns a digest or raises; each scanned file
    carries its outcome as `hashResult : Option String` (`none` = the hash
    computation raised and `organize_files` caught the exception).
  * `shutil.move` / `mkdir` in the live move block can raise
    (permission/I-O); each scanned file carries `moveFails : Bool` for that.
    Duplicate `unlink` and the database insert are modelled as succeeding
    (no claim depends on their failure).
  * The per-file "WOULD MOVE"/"MOVING" log line is the observable preview of
    a run; it is modelled by the `moves` list accumulated in the state.
-/

/-! ## Paths and the filesystem -/

abbrev FPath := List String

abbrev FS := List FPath

/-- `shutil.move src dst`: the file stops existing at `src` and exists at `dst`. -/
def fsMove (fs : FS) (src dst : FPath) : FS := dst :: fs.erase src

/-- `Path.unlink`: delete a file. -/
def fsRemove (fs : FS) (p : FPath) : FS := fs.erase p

/-- Base name of a path (Python `file_path.name`). -/
def fileName (p : FPath) : String := p.getLastD ""

/-! ## Python `Path.stem` / `Path.suffix`

CPython splits the final component at its last dot `i`, provided
`0 < i < len(name) - 1`; otherwise the stem is the whole name and the suffix
is empty. -/

def split_stem_suffix (name : String) : String × String :=
  let cs := name.data
  let n := cs.length
  let j := cs.reverse.indexOf '.'
  if j < n then
    let i := n - 1 - j
    if 0 < i ∧ i < n - 1 then (⟨cs.take i⟩, ⟨cs.drop i⟩) else (name, "")
  else (name, "")

/-! ## Tracking store (`database_manager.py`) -/

/-- One row of the `files` table. -/
structure FileRecord where
  id : Nat
  original_path : FPath
  new_path : FPath
  file_name : String
  file_size : Nat
  file_type : String
  created_at : String
  modified_at : String
  sha256_hash : String
  operation_date : Nat
  operation_id : String
deriving DecidableEq, Repr

/-- The store: `AUTOINCREMENT` id counter, insertion clock, rows in
insertion order. -/
structure DB where
  nextId : Nat
  clock : Nat
  records : List FileRecord
deriving DecidableEq, Repr

/-- The caller-supplied part of a row (`file_info` dict in
`insert_file_record`). -/
structure FileInfo where
  original_path : FPath
  new_path : FPath
  file_name : String
  file_size : Nat
  file_type : String
  created_at : String
  modified_at : String
  sha256_hash : String
  operation_id : String
deriving DecidableEq, Repr

/-- `insert_file_record`: append one row, assign its id and operation date. -/
def insert_file_record (info : FileInfo) (db : DB) : Nat × DB :=
  let r : FileRecord :=
    { id := db.nextId
      original_path := info.original_path
      new_path := info.new_path
      file_name := info.file_name
      file_size := info.file_size
      file_type := info.file_type
      created_at := info.created_at
      modified_at := info.modified_at
      sha256_hash := info.sha256_hash
      operation_date := db.clock
      operation_id := info.operation_id }
  (db.nextId, { nextId := db.nextId + 1, clock := db.clock + 1, records := db.records ++ [r] })

/-- `get_duplicate`: most recently inserted row with the given hash
(`ORDER BY operation_date DESC LIMIT 1`). -/
def get_duplicate (hash_value : String) (db : DB) : Option FileRecord :=
  (db.records.filter (fun r => decide (r.sha256_hash = hash_value))).getLast?

/-- `get_operation_files`: rows of one operation, oldest first
(`ORDER BY operation_date ASC`). -/
def get_operation_files (operation_id : String) (db : DB) : List FileRecord :=
  db.records.filter (fun r => decide (r.operation_id = operation_id))

/-- `get_last_operation_id`: operation id of the most recently inserted row. -/
def get_last_operation_id (db : DB) : Option String :=
  db.records.getLast? |>.map (·.operation_id)

/-- `DELETE FROM files WHERE id IN ids`. -/
def delete_records (ids : List Nat) (db : DB) : DB :=
  { db with records := db.records.filter (fun r => decide (r.id ∉ ids)) }

/-! ## Undo engine (`database_manager.undo_operation`) -/

structure UndoStats where
  files_restored : Nat
  errors : Nat
deriving DecidableEq, Repr

/-- State threaded through the per-record loop of `undo_operation`. -/
structure UndoState where
  fs : FS
  restored_ids : List Nat
  stats : UndoStats
deriving DecidableEq, Repr

/-- Body of the `for file_record in files` loop of `undo_operation`. -/
def undoStep (dry_run : Bool) (st : UndoState) (r : FileRecord) : UndoState :=
  if r.new_path ∉ st.fs then
    -- file not found at new location: count as error, skip
    { st with stats := { st.stats with errors := st.stats.errors + 1 } }
  else if r.original_path ∈ st.fs then
    -- original location occupied: count as error, skip
    { st with stats := { st.stats with errors := st.stats.errors + 1 } }
  else
    let st :=
      if dry_run then st
      else
        { st with fs := fsMove st.fs r.new_path r.original_path,
                  restored_ids := st.restored_ids ++ [r.id] }
    { st with stats := { st.stats with files_restored := st.stats.files_restored + 1 } }

/-- The whole per-record loop of `undo_operation`. -/
def undoLoop (dry_run : Bool) (fs : FS) (files : List FileRecord) : UndoState :=
  files.foldl (undoStep dry_run) ⟨fs, [], ⟨0, 0⟩⟩

/-- `undo_operation`: restore each record of the operation, then delete the
successfully restored ids from the store in one batch (live mode only). -/
def undo_operation (operation_id : String) (dry_run : Bool) (fs : FS) (db : DB) :
    UndoStats × FS × DB :=
  let files := get_operation_files operation_id db
  if files.isEmpty then (⟨0, 0⟩, fs, db)
  else
    let st := undoLoop dry_run fs files
    let db' :=
      if !dry_run && !st.restored_ids.isEmpty then delete_records st.restored_ids db else db
    (st.stats, st.fs, db')

/-- `undo_last_operation`: resolve the most recent operation id, then undo it. -/
def undo_last_operation (dry_run : Bool) (fs : FS) (db : DB) : UndoStats × FS × DB :=
  match get_last_operation_id db with
  | none => (⟨0, 0⟩, fs, db)
  | some opid => undo_operation opid dry_run fs db

/-! ## Categorization (`file_organizer.py`) -/

def FILE_CATEGORIES : List (String × List String) :=
  [ ("images", [".jpg", ".jpeg", ".png", ".gif", ".bmp", ".svg", ".webp",
      ".ico", ".tiff", ".tif", ".heic", ".heif", ".raw"]),
    ("documents", [".pdf", ".doc", ".docx", ".txt", ".rtf", ".odt", ".xls",
      ".xlsx", ".ppt", ".pptx", ".csv", ".md", ".tex"]),
    ("videos", [".mp4", ".avi", ".mkv", ".mov", ".wmv", ".flv", ".webm",
      ".m4v", ".mpg", ".mpeg", ".3gp"]),
    ("audio", [".mp3", ".wav", ".flac", ".aac", ".ogg", ".wma", ".m4a",
      ".opus", ".aiff"]),
    ("archives", [".zip", ".rar", ".7z", ".tar", ".gz", ".bz2", ".xz",
      ".tar.gz", ".tgz"]),
    ("code", [".py", ".js", ".java", ".cpp", ".c", ".h", ".cs", ".php",
      ".rb", ".go", ".rs", ".swift", ".kt", ".ts", ".html",
      ".css", ".scss", ".json", ".xml", ".yaml", ".yml"]),
    ("executables", [".exe", ".msi", ".app", ".dmg", ".deb", ".rpm", ".apk"]) ]

def DEFAULT_CATEGORY : String := "others"

/-- `str.lower()` (character-wise, kernel-evaluable). -/
def strToLower (s : String) : String := ⟨s.data.map Char.toLower⟩

/-- `get_file_category`: case-insensitive extension lookup, first matching
category in table order, default `others`. -/
def get_file_category (name : String) : String :=
  let ext := strToLower (split_stem_suffix name).2
  match FILE_CATEGORIES.find? (fun c => c.2.contains ext) with
  | some c => c.1
  | none => DEFAULT_CATEGORY

/-- `f-string {month:02d}` for the month folder. -/
def pad2 (m : Nat) : String := if m < 10 then "0" ++ toString m else toString m

/-- `build_organized_path`: `output/category[/year/month]`. -/
def build_organized_path (base_output_dir : FPath) (category : String)
    (year month : Nat) (organize_by_date : Bool) : FPath :=
  if organize_by_date then base_output_dir ++ [category, toString year, pad2 month]
  else base_output_dir ++ [category]

/-! ## Collision renaming

`target = target_dir / name; counter = 1; while target.exists(): target =
target_dir / (stem_counter ++ suffix); counter += 1`.  The loop is embedded
with fuel `fs.length + 1` (a real run always stops within the size of the
filesystem; if the fuel runs out the current candidate is returned
unchecked, a case the theorems exclude by exhibiting a free candidate). -/

def conflict_name (name stem sfx : String) : Nat → String
  | 0 => name
  | k + 1 => stem ++ "_" ++ toString (k + 1) ++ sfx

def find_free_aux (fs : FS) (dir : FPath) (name stem sfx : String) :
    Nat → Nat → FPath
  | k, 0 => dir ++ [conflict_name name stem sfx k]
  | k, fuel + 1 =>
    let cand := dir ++ [conflict_name name stem sfx k]
    if cand ∈ fs then find_free_aux fs dir name stem sfx (k + 1) fuel else cand

/-- The collision-renaming loop shared by `move_file` and `organize_files`. -/
def find_free_target (fs : FS) (dir : FPath) (name : String) : FPath :=
  let s := split_stem_suffix name
  find_free_aux fs dir name s.1 s.2 0 (fs.length + 1)

/-- `move_file` (lines 230-286): resolve the collision-free target, then move
(live mode).  Returns success, the new filesystem, and the resolved target
(the logged `-> target` of the WOULD MOVE / MOVING line). -/
def move_file (fs : FS) (source : FPath) (target_dir : FPath) (dry_run : Bool) :
    Bool × FS × FPath :=
  let target_file := find_free_target fs target_dir (fileName source)
  if dry_run then (true, fs, target_file)
  else (true, fsMove fs source target_file, target_file)

/-! ## Organize engine (`file_organizer.organize_files`) -/

/-- Option flags of `organize_files` (`recursive` only affects the directory
scan, which is upstream of the modelled per-file loop). -/
structure OrganizeOptions where
  organize_by_date : Bool
  dry_run : Bool
  enable_database : Bool
  check_duplicates : Bool
  remove_duplicates : Bool
deriving DecidableEq, Repr

/-- One file produced by `scan_directory`, with the filesystem metadata the
loop reads and the outcome of its fallible calls. -/
structure SourceFile where
  path : FPath
  hashResult : Option String
  file_size : Nat
  created_at : String
  modified_at : String
  year : Nat
  month : Nat
  moveFails : Bool
deriving DecidableEq, Repr

structure OrganizeStats where
  files_processed : Nat
  files_moved : Nat
  errors : Nat
  duplicates_found : Nat
  duplicates_removed : Nat
deriving DecidableEq, Repr

/-- State threaded through the `for file_path in files` loop. -/
structure OrgState where
  fs : FS
  db : DB
  stats : OrganizeStats
  moves : List (FPath × FPath)
deriving DecidableEq, Repr

/-- Body of the per-file loop of `organize_files`. -/
def processFile (opts : OrganizeOptions) (output_path : FPath)
    (opId : Option String) (st : OrgState) (f : SourceFile) : OrgState :=
  let st := { st with stats :=
    { st.stats with files_processed := st.stats.files_processed + 1 } }
  -- skip if the file already lies within the output directory
  if List.isPrefixOf output_path f.path.dropLast then st
  else
    -- compute the SHA-256 hash (a raised exception leaves it None)
    let file_hash : Option String :=
      if opts.check_duplicates || opts.enable_database then f.hashResult else none
    -- duplicate check against the store
    let dup : Option FileRecord :=
      if opts.check_duplicates && file_hash.isSome && opts.enable_database then
        get_duplicate (file_hash.getD "") st.db
      else none
    match dup with
    | some _ =>
      let st := { st with stats :=
        { st.stats with duplicates_found := st.stats.duplicates_found + 1 } }
      -- a detected duplicate never proceeds to the move
      if opts.remove_duplicates then
        if opts.dry_run then st
        else
          { st with fs := fsRemove st.fs f.path,
                    stats := { st.stats with
                      duplicates_removed := st.stats.duplicates_removed + 1 } }
      else st
    | none =>
      let category := get_file_category (fileName f.path)
      let target_dir :=
        build_organized_path output_path category f.year f.month opts.organize_by_date
      let target_file := find_free_target st.fs target_dir (fileName f.path)
      -- WOULD MOVE / MOVING log line
      let st := { st with moves := st.moves ++ [(f.path, target_file)] }
      if !opts.dry_run && f.moveFails then
        -- mkdir/shutil.move raised: caught, counted, loop continues
        { st with stats := { st.stats with errors := st.stats.errors + 1 } }
      else
        let st :=
          if opts.dry_run then st else { st with fs := fsMove st.fs f.path target_file }
        let st := { st with stats :=
          { st.stats with files_moved := st.stats.files_moved + 1 } }
        if opts.enable_database && !opts.dry_run && opId.isSome then
          { st with db := (insert_file_record
            { original_path := f.path
              new_path := target_file
              file_name := fileName f.path
              file_size := f.file_size
              file_type := category
              created_at := f.created_at
              modified_at := f.modified_at
              sha256_hash := file_hash.getD ""
              operation_id := opId.getD "" } st.db).2 }
        else st

structure OrganizeResult where
  stats : OrganizeStats
  fs : FS
  db : DB
  moves : List (FPath × FPath)
deriving DecidableEq, Repr

/-- `organize_files`.  `source_valid` is the result of the source-directory
validation (exists and is a directory); `files` is the scan result in scan
order; `opid` is the freshly generated operation identifier of this run. -/
def organize_files (source_valid : Bool) (files : List SourceFile)
    (output_path : FPath) (opts : OrganizeOptions) (opid : String)
    (fs : FS) (db : DB) : OrganizeResult :=
  if !source_valid then ⟨⟨0, 0, 1, 0, 0⟩, fs, db, []⟩
  else
    -- an operation id exists only for live runs with the database enabled
    let opId : Option String :=
      if opts.enable_database && !opts.dry_run then some opid else none
    let st := files.foldl (processFile opts output_path opId) ⟨fs, db, ⟨0, 0, 0, 0, 0⟩, []⟩
    ⟨st.stats, st.fs, st.db, st.moves⟩

/-- CLI wiring in `main` (lines 686-687): `check_duplicates =
args.check_duplicates or args.remove_duplicates`. -/
def main_check_duplicates (check_flag remove_flag : Bool) : Bool :=
  check_flag || remove_flag

/-! ## Learning engine (`learning_engine.py`) -/

/-- A `collections.Counter` in insertion order: destination label to count. -/
abbrev DCounter := List (String × Nat)

def counterTotal (c : DCounter) : Nat := (c.map (·.2)).sum

/-- `Counter.most_common(1)[0]`: the highest count, ties broken by earliest
insertion (Python sorting is stable). -/
def most_common1 (c : DCounter) : Option (String × Nat) :=
  match c with
  | [] => none
  | x :: xs => some (xs.foldl (fun best p => if p.2 > best.2 then p else best) x)

/-- `FileOrganizationModel` (`temporal_patterns` is built by training but not
read by `predict_destination`). -/
structure FileOrganizationModel where
  type_to_folder : List (String × DCounter)
  ext_to_folder : List (String × DCounter)
  name_pattern_to_folder : List (String × DCounter)
  temporal_patterns : List (Nat × List (String × DCounter))
  total_samples : Nat
deriving DecidableEq, Repr

def MIN_SAMPLES_FOR_PREDICTION : Nat := 3

/-- `model.table[key]` after an `if key in table` test. -/
def clookup (t : List (String × DCounter)) (k : String) : Option DCounter :=
  (t.find? (fun e => e.1 == k)).map (·.2)

/-- Split a character list at a separator (`str.split` on one character). -/
def splitChars (sep : Char) : List Char → List (List Char)
  | [] => [[]]
  | c :: rest =>
    let r := splitChars sep rest
    if c = sep then [] :: r
    else
      match r with
      | [] => [[c]]
      | g :: gs => (c :: g) :: gs

/-- `extract_filename_pattern`: strip extension, replace underscore and dash
by spaces, split on whitespace, first token lowercased; `unknown` if
nothing remains. -/
def extract_filename_pattern (filename : String) : String :=
  let stem := (split_stem_suffix filename).1
  let normalized := stem.data.map (fun c => if c = '_' || c = '-' then ' ' else c)
  let parts := (splitChars ' ' normalized).filter (fun g => !g.isEmpty)
  match parts with
  | p :: _ => strToLower ⟨p⟩
  | [] => "unknown"

/-- One weighted signal appended to `predictions`. -/
structure Signal where
  destination : String
  confidence : ℚ
  reason : String
  weight : ℚ
deriving DecidableEq, Repr

/-- The shared body of the three strategies: most common destination of the
counter, local confidence `count / total`, a justification citing the
counts. -/
def signal_from (counts : DCounter) (weight : ℚ)
    (mkReason : String → Nat → Nat → String) : Option Signal :=
  match most_common1 counts with
  | none => none
  | some (dest, count) =>
    let total := counterTotal counts
    some ⟨dest, (count : ℚ) / (total : ℚ), mkReason dest count total, weight⟩

def reason_type (file_type : String) (dest : String) (count total : Nat) : String :=
  "Based on " ++ toString count ++ "/" ++ toString total ++ " prior " ++
    file_type ++ " files moved to " ++ dest

def reason_ext (file_ext : String) (dest : String) (count total : Nat) : String :=
  "Based on " ++ toString count ++ "/" ++ toString total ++ " prior " ++
    file_ext ++ " files moved to " ++ dest

def reason_name (name_pattern : String) (dest : String) (count total : Nat) : String :=
  "Files starting with " ++ name_pattern ++ " usually go to " ++ dest ++
    " (" ++ toString count ++ "/" ++ toString total ++ ")"

/-- Metadata handed to `predict_destination`. -/
structure FileMeta where
  file_name : String
  file_type : String
  file_ext : String
deriving DecidableEq, Repr

/-- The `predictions` list: type signal (weight 0.5), extension signal
(weight 0.3, only for a nonempty extension), name-pattern signal
(weight 0.2), in that order. -/
def build_signals (meta : FileMeta) (m : FileOrganizationModel) : List Signal :=
  let file_ext := strToLower meta.file_ext
  (match clookup m.type_to_folder meta.file_type with
   | some cs => (signal_from cs (1/2) (reason_type meta.file_type)).toList
   | none => [])
  ++ (if !file_ext.data.isEmpty then
        match clookup m.ext_to_folder file_ext with
        | some cs => (signal_from cs (3/10) (reason_ext file_ext)).toList
        | none => []
      else [])
  ++ (match clookup m.name_pattern_to_folder (extract_filename_pattern meta.file_name) with
      | some cs => (signal_from cs (1/5)
          (reason_name (extract_filename_pattern meta.file_name))).toList
      | none => [])

/-- One entry of `destination_scores`. -/
structure ScoreEntry where
  dest : String
  total_confidence : ℚ
  total_weight : ℚ
  reasons : List String
deriving DecidableEq, Repr

/-- Fold one prediction into `destination_scores` (insertion order kept). -/
def add_signal (acc : List ScoreEntry) (p : Signal) : List ScoreEntry :=
  if acc.any (fun e => e.dest == p.destination) then
    acc.map (fun e =>
      if e.dest == p.destination then
        { e with total_confidence := e.total_confidence + p.confidence * p.weight,
                 total_weight := e.total_weight + p.weight,
                 reasons := e.reasons ++ [p.reason] }
      else e)
  else acc ++ [⟨p.destination, p.confidence * p.weight, p.weight, [p.reason]⟩]

def group_scores (ps : List Signal) : List ScoreEntry := ps.foldl add_signal []

/-- `max(destination_scores.items(), key=total_confidence)`: first maximal
entry in insertion order. -/
def best_score : List ScoreEntry → Option ScoreEntry
  | [] => none
  | x :: xs =>
    some (xs.foldl (fun b e => if e.total_confidence > b.total_confidence then e else b) x)

/-- `'; '.join(reasons)` (kernel-evaluable). -/
def joinReasons : List String → String
  | [] => ""
  | [x] => x
  | x :: xs => x ++ "; " ++ joinReasons xs

/-- `predict_destination`. -/
def predict_destination (meta : FileMeta) (m : FileOrganizationModel) :
    Option (String × ℚ × String) :=
  if m.total_samples < MIN_SAMPLES_FOR_PREDICTION then none
  else
    let preds := build_signals meta m
    match best_score (group_scores preds) with
    | none => none
    | some e =>
      some (e.dest, e.total_confidence / e.total_weight, joinReasons e.reasons)

/-! ## Helper lemmas -/

/-- A dry-run loop iteration touches neither the filesystem nor the store. -/
theorem processFile_dry_frame (bd ed c r : Bool) (out : FPath) (opId : Option String)
    (st : OrgState) (f : SourceFile) :
    (processFile ⟨bd, true, ed, c, r⟩ out opId st f).fs = st.fs ∧
    (processFile ⟨bd, true, ed, c, r⟩ out opId st f).db = st.db := by
  unfold processFile
  dsimp only
  split
  · exact ⟨rfl, rfl⟩
  · split
    · split
      · exact ⟨rfl, rfl⟩
      · exact ⟨rfl, rfl⟩
    · simp

/-- Folding dry-run iterations over any file list preserves fs and db. -/
theorem foldl_processFile_dry_frame (bd ed c r : Bool) (out : FPath)
    (opId : Option String) (files : List SourceFile) (st : OrgState) :
    (files.foldl (processFile ⟨bd, true, ed, c, r⟩ out opId) st).fs = st.fs ∧
    (files.foldl (processFile ⟨bd, true, ed, c, r⟩ out opId) st).db = st.db := by
  induction files generalizing st with
  | nil => exact ⟨rfl, rfl⟩
  | cons f fsr ih =>
    have h := processFile_dry_frame bd ed c r out opId st f
    simp only [List.foldl_cons]
    exact ⟨(ih _).1.trans h.1, (ih _).2.trans h.2⟩

/-- A dry-run undo iteration touches neither the filesystem nor the restored
id list. -/
theorem undoStep_dry_frame (st : UndoState) (r : FileRecord) :
    (undoStep true st r).fs = st.fs ∧
    (undoStep true st r).restored_ids = st.restored_ids := by
  unfold undoStep
  split
  · exact ⟨rfl, rfl⟩
  · split
    · exact ⟨rfl, rfl⟩
    · exact ⟨rfl, rfl⟩

theorem foldl_undoStep_dry_frame (files : List FileRecord) (st : UndoState) :
    (files.foldl (undoStep true) st).fs = st.fs ∧
    (files.foldl (undoStep true) st).restored_ids = st.restored_ids := by
  induction files generalizing st with
  | nil => exact ⟨rfl, rfl⟩
  | cons f fsr ih =>
    have h := undoStep_dry_frame st f
    simp only [List.foldl_cons]
    exact ⟨(ih _).1.trans h.1, (ih _).2.trans h.2⟩

/-- C2: with `dry_run=True`, `organize_files` leaves the filesystem and the
tracking store exactly as they were (no move, no delete, no record
inserted), for every source directory, file list and option combination;
and `undo_operation` with `dry_run=True` likewise moves nothing and deletes
no records. -/
theorem dry_run_is_pure_preview :
    (∀ (source_valid : Bool) (files : List SourceFile) (out : FPath)
       (bd ed c r : Bool) (opid : String) (fs : FS) (db : DB),
       (organize_files source_valid files out ⟨bd, true, ed, c, r⟩ opid fs db).fs = fs ∧
       (organize_files source_valid files out ⟨bd, true, ed, c, r⟩ opid fs db).db = db) ∧
    (∀ (opid : String) (fs : FS) (db : DB),
       (undo_operation opid true fs db).2.1 = fs ∧
       (undo_operation opid true fs db).2.2 = db) := by
  constructor
  · intro source_valid files out bd ed c r opid fs db
    unfold organize_files
    split
    · exact ⟨rfl, rfl⟩
    · exact foldl_processFile_dry_frame bd ed c r out _ files _
  · intro opid fs db
    have h1 := foldl_undoStep_dry_frame (get_operation_files opid db) ⟨fs, [], ⟨0, 0⟩⟩
    by_cases h : (get_operation_files opid db).isEmpty
    · simp [undo_operation, h]
    · simp [undo_operation, h, undoLoop, h1.1]

/-- Every loop iteration counts its file exactly once, whatever branch it
takes (skip, duplicate, error or move). -/
theorem processFile_counts_file (opts : OrganizeOptions) (out : FPath)
    (opId : Option String) (st : OrgState) (f : SourceFile) :
    (processFile opts out opId st f).stats.files_processed =
      st.stats.files_processed + 1 := by
  unfold processFile
  dsimp only
  split
  · rfl
  · split
    · split
      · split
        · rfl
        · rfl
      · rfl
    · split
      · rfl
      · split <;> split <;> rfl

/-- Every run processes every scanned file: per-file failures never abort
the loop. -/
theorem foldl_processFile_counts (opts : OrganizeOptions) (out : FPath)
    (opId : Option String) (files : List SourceFile) (st : OrgState) :
    (files.foldl (processFile opts out opId) st).stats.files_processed =
      st.stats.files_processed + files.length := by
  induction files generalizing st with
  | nil => rfl
  | cons f fsr ih =>
    simp only [List.foldl_cons, List.length_cons, ih, processFile_counts_file]
    omega

/-- If duplicate checking is off or the store is disabled, an iteration
never touches the duplicate counters (the store is never consulted). -/
theorem processFile_no_dup_stats (opts : OrganizeOptions) (out : FPath)
    (opId : Option String) (st : OrgState) (f : SourceFile)
    (h : opts.check_duplicates = false ∨ opts.enable_database = false) :
    (processFile opts out opId st f).stats.duplicates_found = st.stats.duplicates_found ∧
    (processFile opts out opId st f).stats.duplicates_removed =
      st.stats.duplicates_removed := by
  have hcond : (opts.check_duplicates &&
      (if opts.check_duplicates || opts.enable_database then f.hashResult else none).isSome &&
      opts.enable_database) = false := by
    rcases h with h | h <;> simp [h]
  unfold processFile
  dsimp only
  split
  · exact ⟨rfl, rfl⟩
  · simp only [hcond, Bool.false_eq_true, if_false]
    split
    · exact ⟨rfl, rfl⟩
    · split <;> split <;> exact ⟨rfl, rfl⟩

theorem foldl_processFile_no_dup_stats (opts : OrganizeOptions) (out : FPath)
    (opId : Option String) (files : List SourceFile) (st : OrgState)
    (h : opts.check_duplicates = false ∨ opts.enable_database = false) :
    (files.foldl (processFile opts out opId) st).stats.duplicates_found =
      st.stats.duplicates_found ∧
    (files.foldl (processFile opts out opId) st).stats.duplicates_removed =
      st.stats.duplicates_removed := by
  induction files generalizing st with
  | nil => exact ⟨rfl, rfl⟩
  | cons f fsr ih =>
    have hf := processFile_no_dup_stats opts out opId st f h
    simp only [List.foldl_cons]
    exact ⟨(ih _).1.trans hf.1, (ih _).2.trans hf.2⟩

/-- An iteration whose hash computation failed (`file_hash = None`) skips the
store lookup and proceeds to categorization and the move: the duplicate
counters are untouched and the WOULD MOVE / MOVING line for the resolved
target is logged. -/
theorem processFile_hash_failed (opts : OrganizeOptions) (out : FPath)
    (opId : Option String) (st : OrgState) (f : SourceFile)
    (hhash : f.hashResult = none)
    (hskip : List.isPrefixOf out f.path.dropLast = false) :
    (processFile opts out opId st f).stats.duplicates_found =
      st.stats.duplicates_found ∧
    (processFile opts out opId st f).stats.duplicates_removed =
      st.stats.duplicates_removed ∧
    (processFile opts out opId st f).moves = st.moves ++
      [(f.path, find_free_target st.fs
        (build_organized_path out (get_file_category (fileName f.path)) f.year f.month
          opts.organize_by_date) (fileName f.path))] := by
  unfold processFile
  dsimp only
  rw [if_neg (by simp [hskip])]
  simp only [hhash, ite_self, Option.isSome_none, Bool.and_false, Bool.false_and,
    Bool.false_eq_true, if_false]
  split
  · exact ⟨rfl, rfl, rfl⟩
  · split <;> split <;> exact ⟨rfl, rfl, rfl⟩

/-- C10: duplicate detection fires only when the database is enabled and a
digest was computed.  With `enable_database=False` (any value of
`check_duplicates`) a whole run reports zero duplicates found and removed;
and an iteration whose hash computation failed leaves the duplicate
counters untouched and proceeds to categorization and the move. -/
theorem duplicates_need_database_and_hash :
    (∀ (source_valid : Bool) (files : List SourceFile) (out : FPath)
       (bd dr c r : Bool) (opid : String) (fs : FS) (db : DB),
       (organize_files source_valid files out ⟨bd, dr, false, c, r⟩ opid fs db).stats.duplicates_found = 0 ∧
       (organize_files source_valid files out ⟨bd, dr, false, c, r⟩ opid fs db).stats.duplicates_removed = 0) ∧
    (∀ (opts : OrganizeOptions) (out : FPath) (opId : Option String)
       (st : OrgState) (f : SourceFile),
       f.hashResult = none →
       List.isPrefixOf out f.path.dropLast = false →
       (processFile opts out opId st f).stats.duplicates_found =
         st.stats.duplicates_found ∧
       (processFile opts out opId st f).stats.duplicates_removed =
         st.stats.duplicates_removed ∧
       (processFile opts out opId st f).moves = st.moves ++
         [(f.path, find_free_target st.fs
           (build_organized_path out (get_file_category (fileName f.path)) f.year f.month
             opts.organize_by_date) (fileName f.path))]) := by
  constructor
  · intro source_valid files out bd dr c r opid fs db
    unfold organize_files
    split
    · exact ⟨rfl, rfl⟩
    · exact foldl_processFile_no_dup_stats _ out _ files _ (Or.inr rfl)
  · intro opts out opId st f hhash hskip
    exact processFile_hash_failed opts out opId st f hhash hskip

/-- Witness for C10 at a concrete input: database disabled run reports no
duplicates; a hash-failure file still moves. -/
theorem duplicates_need_database_and_hash_witness :
    ((organize_files true [⟨["d", "a.txt"], some "h", 1, "c", "m", 2024, 3, false⟩]
        ["o"] ⟨false, false, false, true, false⟩ "op" [["d", "a.txt"]]
        ⟨0, 0, []⟩).stats.duplicates_found = 0) ∧
    ((⟨["d", "b.txt"], none, 1, "c", "m", 2024, 3, false⟩ : SourceFile).hashResult = none) ∧
    ((processFile ⟨false, false, true, true, false⟩ ["o"] (some "op")
        ⟨[["d", "b.txt"]], ⟨0, 0, []⟩, ⟨0, 0, 0, 0, 0⟩, []⟩
        ⟨["d", "b.txt"], none, 1, "c", "m", 2024, 3, false⟩).stats.duplicates_found = 0) := by
  refine ⟨(duplicates_need_database_and_hash.1 true _ ["o"] false false true false "op" _ _).1, rfl, ?_⟩
  have h := duplicates_need_database_and_hash.2 ⟨false, false, true, true, false⟩ ["o"]
    (some "op") ⟨[["d", "b.txt"]], ⟨0, 0, []⟩, ⟨0, 0, 0, 0, 0⟩, []⟩
    ⟨["d", "b.txt"], none, 1, "c", "m", 2024, 3, false⟩ rfl (by decide)
  exact h.1

/-- A live iteration with duplicate checking and removal on, whose digest
matches a stored record: the source file is deleted and both duplicate
counters advance; the file never proceeds to the move. -/
theorem processFile_removes_duplicate (bd : Bool) (out : FPath)
    (opId : Option String) (st : OrgState) (f : SourceFile) (h : String)
    (d : FileRecord) (hhash : f.hashResult = some h)
    (hdup : get_duplicate h st.db = some d)
    (hskip : List.isPrefixOf out f.path.dropLast = false) :
    processFile ⟨bd, false, true, true, true⟩ out opId st f =
      { st with fs := fsRemove st.fs f.path,
                stats := { st.stats with
                  files_processed := st.stats.files_processed + 1,
                  duplicates_found := st.stats.duplicates_found + 1,
                  duplicates_removed := st.stats.duplicates_removed + 1 } } := by
  unfold processFile
  dsimp only
  rw [if_neg (by simp [hskip])]
  simp [hhash, hdup]

/-- C8, counterexample: a direct `organize_files` call with
`remove_duplicates=True` but `check_duplicates=False`, on a file whose
digest matches a stored record, performs no duplicate checking: it reports
zero duplicates found and removed and moves the file instead of deleting
it.  (The `remove implies check` wiring lives only in the CLI `main`.) -/
theorem remove_duplicates_alone_skips_checking :
    (organize_files true [⟨["d", "a.txt"], some "h", 1, "c", "m", 2024, 3, false⟩]
      ["o"] ⟨false, false, true, false, true⟩ "op" [["d", "a.txt"]]
      ⟨1, 1, [⟨0, ["x", "old.txt"], ["o", "documents", "old.txt"], "old.txt", 1,
        "documents", "c", "m", "h", 0, "prev"⟩]⟩).stats.duplicates_found = 0 ∧
    (organize_files true [⟨["d", "a.txt"], some "h", 1, "c", "m", 2024, 3, false⟩]
      ["o"] ⟨false, false, true, false, true⟩ "op" [["d", "a.txt"]]
      ⟨1, 1, [⟨0, ["x", "old.txt"], ["o", "documents", "old.txt"], "old.txt", 1,
        "documents", "c", "m", "h", 0, "prev"⟩]⟩).stats.duplicates_removed = 0 ∧
    (organize_files true [⟨["d", "a.txt"], some "h", 1, "c", "m", 2024, 3, false⟩]
      ["o"] ⟨false, false, true, false, true⟩ "op" [["d", "a.txt"]]
      ⟨1, 1, [⟨0, ["x", "old.txt"], ["o", "documents", "old.txt"], "old.txt", 1,
        "documents", "c", "m", "h", 0, "prev"⟩]⟩).fs = [["o", "documents", "a.txt"]] := by
  refine ⟨?_, ?_, ?_⟩ <;> decide

/-- C8, amended: the `remove_duplicates implies check_duplicates` coupling
is implemented in the CLI layer (`main` passes `check_duplicates or
remove_duplicates` into the engine); inside `organize_files` itself,
duplicate checking happens only when `check_duplicates=True` — with it
False a run finds and removes no duplicates — and when both flags are True
a live iteration whose digest matches a stored record deletes the file and
counts it. -/
theorem remove_duplicates_implies_check_at_cli :
    (∀ check_flag : Bool, main_check_duplicates check_flag true = true) ∧
    (∀ (source_valid : Bool) (files : List SourceFile) (out : FPath)
       (bd dr ed r : Bool) (opid : String) (fs : FS) (db : DB),
       (organize_files source_valid files out ⟨bd, dr, ed, false, r⟩ opid fs db).stats.duplicates_found = 0 ∧
       (organize_files source_valid files out ⟨bd, dr, ed, false, r⟩ opid fs db).stats.duplicates_removed = 0) ∧
    (∀ (bd : Bool) (out : FPath) (opId : Option String) (st : OrgState)
       (f : SourceFile) (h : String) (d : FileRecord),
       f.hashResult = some h → get_duplicate h st.db = some d →
       List.isPrefixOf out f.path.dropLast = false →
       processFile ⟨bd, false, true, true, true⟩ out opId st f =
         { st with fs := fsRemove st.fs f.path,
                   stats := { st.stats with
                     files_processed := st.stats.files_processed + 1,
                     duplicates_found := st.stats.duplicates_found + 1,
                     duplicates_removed := st.stats.duplicates_removed + 1 } }) := by
  refine ⟨fun check_flag => by simp [main_check_duplicates], ?_, ?_⟩
  · intro source_valid files out bd dr ed r opid fs db
    unfold organize_files
    split
    · exact ⟨rfl, rfl⟩
    · exact foldl_processFile_no_dup_stats _ out _ files _ (Or.inl rfl)
  · intro bd out opId st f h d hhash hdup hskip
    exact processFile_removes_duplicate bd out opId st f h d hhash hdup hskip

/-- Witness for the amended C8 at a concrete input: with both flags on, a
matching digest gets the file deleted and counted. -/
theorem remove_duplicates_implies_check_at_cli_witness :
    main_check_duplicates false true = true ∧
    processFile ⟨false, false, true, true, true⟩ ["o"] (some "op")
        ⟨[["d", "a.txt"]],
         ⟨1, 1, [⟨0, ["x", "old.txt"], ["o", "documents", "old.txt"], "old.txt", 1,
           "documents", "c", "m", "h", 0, "prev"⟩]⟩, ⟨0, 0, 0, 0, 0⟩, []⟩
        ⟨["d", "a.txt"], some "h", 1, "c", "m", 2024, 3, false⟩ =
      { fs := [],
        db := ⟨1, 1, [⟨0, ["x", "old.txt"], ["o", "documents", "old.txt"], "old.txt", 1,
          "documents", "c", "m", "h", 0, "prev"⟩]⟩,
        stats := ⟨1, 0, 0, 1, 1⟩, moves := [] } := by
  refine ⟨remove_duplicates_implies_check_at_cli.1 false, ?_⟩
  have h := remove_duplicates_implies_check_at_cli.2.2 false ["o"] (some "op")
    ⟨[["d", "a.txt"]],
     ⟨1, 1, [⟨0, ["x", "old.txt"], ["o", "documents", "old.txt"], "old.txt", 1,
       "documents", "c", "m", "h", 0, "prev"⟩]⟩, ⟨0, 0, 0, 0, 0⟩, []⟩
    ⟨["d", "a.txt"], some "h", 1, "c", "m", 2024, 3, false⟩ "h"
    ⟨0, ["x", "old.txt"], ["o", "documents", "old.txt"], "old.txt", 1,
      "documents", "c", "m", "h", 0, "prev"⟩ rfl (by decide) (by decide)
  rw [h]
  decide

/-- A live iteration whose mkdir/move raises: the exception is caught, the
error counter advances, filesystem and store are untouched, and the loop is
ready for the next file. -/
theorem processFile_move_failure (bd ed c r : Bool) (out : FPath)
    (opId : Option String) (st : OrgState) (f : SourceFile)
    (hskip : List.isPrefixOf out f.path.dropLast = false)
    (hdup : get_duplicate ((if c || ed then f.hashResult else none).getD "") st.db = none)
    (hfail : f.moveFails = true) :
    processFile ⟨bd, false, ed, c, r⟩ out opId st f =
      { st with
        stats := { st.stats with files_processed := st.stats.files_processed + 1,
                                 errors := st.stats.errors + 1 },
        moves := st.moves ++ [(f.path, find_free_target st.fs
          (build_organized_path out (get_file_category (fileName f.path)) f.year f.month bd)
          (fileName f.path))] } := by
  unfold processFile
  dsimp only
  rw [if_neg (by simp [hskip])]
  have hnone : (if (c && (if c || ed then f.hashResult else none).isSome && ed) = true
      then get_duplicate ((if c || ed then f.hashResult else none).getD "") st.db
      else none) = none := by
    by_cases hc : (c && (if c || ed then f.hashResult else none).isSome && ed) = true
    · rw [if_pos hc]; exact hdup
    · rw [if_neg hc]
  rw [hnone]
  simp [hfail]

/-- A live iteration whose hash computation failed but whose move succeeds:
the error counter does not advance and the file is moved. -/
theorem processFile_hash_failure_not_counted (bd ed c r : Bool) (out : FPath)
    (opId : Option String) (st : OrgState) (f : SourceFile)
    (hhash : f.hashResult = none) (hfail : f.moveFails = false)
    (hskip : List.isPrefixOf out f.path.dropLast = false) :
    (processFile ⟨bd, false, ed, c, r⟩ out opId st f).stats.errors = st.stats.errors ∧
    (processFile ⟨bd, false, ed, c, r⟩ out opId st f).stats.files_moved =
      st.stats.files_moved + 1 := by
  unfold processFile
  dsimp only
  rw [if_neg (by simp [hskip])]
  simp only [hhash, ite_self, Option.isSome_none, Bool.and_false, Bool.false_and,
    Bool.false_eq_true, if_false, hfail, Bool.not_false]
  split <;> exact ⟨rfl, rfl⟩

/-- C9, counterexample: a live run over one file whose hash computation
failed finishes with `errors = 0` — the hash failure is caught and logged
but, unlike move failures, it does not increment the errors counter (the
file is simply processed without a digest and moved). -/
theorem hash_failure_not_counted_as_error :
    (organize_files true [⟨["d", "a.txt"], none, 1, "c", "m", 2024, 3, false⟩]
      ["o"] ⟨false, false, true, true, false⟩ "op" [["d", "a.txt"]]
      ⟨0, 0, []⟩).stats =
      ⟨1, 1, 0, 0, 0⟩ := by
  decide

/-- C9, amended: per-file move failures (permission or any I/O error) are
caught, increment the errors counter, leave filesystem and store untouched
and the run continues — every scanned file is processed, so no per-file
failure aborts the run; a hash-computation failure is caught and the run
continues with the file moved, but the errors counter is not incremented
for it. -/
theorem per_file_failures_do_not_abort :
    (∀ (source_valid : Bool) (files : List SourceFile) (out : FPath)
       (opts : OrganizeOptions) (opid : String) (fs : FS) (db : DB),
       source_valid = true →
       (organize_files source_valid files out opts opid fs db).stats.files_processed =
         files.length) ∧
    (∀ (bd ed c r : Bool) (out : FPath) (opId : Option String)
       (st : OrgState) (f : SourceFile),
       List.isPrefixOf out f.path.dropLast = false →
       get_duplicate ((if c || ed then f.hashResult else none).getD "") st.db = none →
       f.moveFails = true →
       processFile ⟨bd, false, ed, c, r⟩ out opId st f =
         { st with
           stats := { st.stats with files_processed := st.stats.files_processed + 1,
                                    errors := st.stats.errors + 1 },
           moves := st.moves ++ [(f.path, find_free_target st.fs
             (build_organized_path out (get_file_category (fileName f.path)) f.year f.month bd)
             (fileName f.path))] }) ∧
    (∀ (bd ed c r : Bool) (out : FPath) (opId : Option String)
       (st : OrgState) (f : SourceFile),
       f.hashResult = none → f.moveFails = false →
       List.isPrefixOf out f.path.dropLast = false →
       (processFile ⟨bd, false, ed, c, r⟩ out opId st f).stats.errors = st.stats.errors ∧
       (processFile ⟨bd, false, ed, c, r⟩ out opId st f).stats.files_moved =
         st.stats.files_moved + 1) := by
  refine ⟨?_, ?_, ?_⟩
  · intro source_valid files out opts opid fs db hv
    subst hv
    unfold organize_files
    simp only [Bool.not_true, Bool.false_eq_true, if_false]
    have h := foldl_processFile_counts opts out
      (if (opts.enable_database && !opts.dry_run) = true then some opid else none)
      files ⟨fs, db, ⟨0, 0, 0, 0, 0⟩, []⟩
    simpa using h
  · intro bd ed c r out opId st f hskip hdup hfail
    exact processFile_move_failure bd ed c r out opId st f hskip hdup hfail
  · intro bd ed c r out opId st f hhash hfail hskip
    exact processFile_hash_failure_not_counted bd ed c r out opId st f hhash hfail hskip

/-- Witness for the amended C9 at concrete inputs: a failing move is
counted and the run goes on; a hash failure is not counted. -/
theorem per_file_failures_do_not_abort_witness :
    ((organize_files true [⟨["d", "a.txt"], none, 1, "c", "m", 2024, 3, true⟩,
        ⟨["d", "b.txt"], none, 1, "c", "m", 2024, 3, false⟩]
      ["o"] ⟨false, false, true, true, false⟩ "op" [["d", "a.txt"], ["d", "b.txt"]]
      ⟨0, 0, []⟩).stats.files_processed = 2) ∧
    ((processFile ⟨false, false, true, true, false⟩ ["o"] (some "op")
        ⟨[["d", "a.txt"]], ⟨0, 0, []⟩, ⟨0, 0, 0, 0, 0⟩, []⟩
        ⟨["d", "a.txt"], none, 1, "c", "m", 2024, 3, true⟩).stats.errors = 1) ∧
    ((processFile ⟨false, false, true, true, false⟩ ["o"] (some "op")
        ⟨[["d", "b.txt"]], ⟨0, 0, []⟩, ⟨0, 0, 0, 0, 0⟩, []⟩
        ⟨["d", "b.txt"], none, 1, "c", "m", 2024, 3, false⟩).stats.errors = 0) := by
  refine ⟨per_file_failures_do_not_abort.1 true _ ["o"] _ "op" _ _ rfl, ?_, ?_⟩
  · have h := per_file_failures_do_not_abort.2.1 false true true false ["o"] (some "op")
      ⟨[["d", "a.txt"]], ⟨0, 0, []⟩, ⟨0, 0, 0, 0, 0⟩, []⟩
      ⟨["d", "a.txt"], none, 1, "c", "m", 2024, 3, true⟩ (by decide) (by decide) rfl
    rw [h]
  · have h := per_file_failures_do_not_abort.2.2 false true true false ["o"] (some "op")
      ⟨[["d", "b.txt"]], ⟨0, 0, []⟩, ⟨0, 0, 0, 0, 0⟩, []⟩
      ⟨["d", "b.txt"], none, 1, "c", "m", 2024, 3, false⟩ rfl rfl (by decide)
    exact h.1

/-- For one and the same starting state, a dry-run iteration and a live
iteration log exactly the same WOULD MOVE / MOVING line (same collision
resolution against the same filesystem). -/
theorem processFile_moves_dry_live (bd ed c r : Bool) (out : FPath)
    (opId1 opId2 : Option String) (st : OrgState) (f : SourceFile) :
    (processFile ⟨bd, true, ed, c, r⟩ out opId1 st f).moves =
    (processFile ⟨bd, false, ed, c, r⟩ out opId2 st f).moves := by
  unfold processFile
  dsimp only
  split
  · rfl
  · cases hdup : (if (c && (if c || ed then f.hashResult else none).isSome && ed) = true
      then get_duplicate ((if c || ed then f.hashResult else none).getD "") st.db
      else none) with
    | some d =>
      simp only [hdup]
      split <;> rfl
    | none =>
      simp only [hdup]
      repeat' split
      all_goals rfl

/-- C5, counterexample: the dry-run preview does not always match live
behavior.  Two source files both named `X.txt` from different directories:
the dry run previews the same target `o/documents/X.txt` for both, while a
live run on the same initial filesystem moves the second to
`o/documents/X_1.txt` (the live loop sees the first file already moved;
the dry loop, having moved nothing, does not). -/
theorem dry_run_preview_mismatch :
    (organize_files true
      [⟨["a", "X.txt"], none, 1, "c", "m", 2024, 3, false⟩,
       ⟨["b", "X.txt"], none, 1, "c", "m", 2024, 3, false⟩]
      ["o"] ⟨false, true, false, false, false⟩ "op"
      [["a", "X.txt"], ["b", "X.txt"]] ⟨0, 0, []⟩).moves ≠
    (organize_files true
      [⟨["a", "X.txt"], none, 1, "c", "m", 2024, 3, false⟩,
       ⟨["b", "X.txt"], none, 1, "c", "m", 2024, 3, false⟩]
      ["o"] ⟨false, false, false, false, false⟩ "op"
      [["a", "X.txt"], ["b", "X.txt"]] ⟨0, 0, []⟩).moves := by
  decide

/-- C5, amended: dry-run and live mode share the same per-file target
computation (category, date folders, collision renaming) against the
current state, so for a single-file run — and in general for each first
divergence-free prefix — the dry-run preview coincides with the live log;
previews can differ only because a live run mutates the filesystem between
files. -/
theorem dry_run_preview_matches_live_single :
    ∀ (f : SourceFile) (out : FPath) (bd ed c r : Bool) (opid : String)
      (fs : FS) (db : DB),
      (organize_files true [f] out ⟨bd, true, ed, c, r⟩ opid fs db).moves =
      (organize_files true [f] out ⟨bd, false, ed, c, r⟩ opid fs db).moves := by
  intro f out bd ed c r opid fs db
  unfold organize_files
  simp only [Bool.not_true, Bool.false_eq_true, if_false, List.foldl_cons, List.foldl_nil]
  exact processFile_moves_dry_live bd ed c r out _ _ ⟨fs, db, ⟨0, 0, 0, 0, 0⟩, []⟩ f

/-! ### Collision-renaming lemmas -/

theorem find_free_aux_of_not_mem (fs : FS) (dir : FPath) (name stem sfx : String)
    (k fuel : Nat) (h : dir ++ [conflict_name name stem sfx k] ∉ fs) :
    find_free_aux fs dir name stem sfx k (fuel + 1) =
      dir ++ [conflict_name name stem sfx k] := by
  rw [find_free_aux, if_neg h]

theorem find_free_aux_step (fs : FS) (dir : FPath) (name stem sfx : String)
    (k fuel : Nat) (h : dir ++ [conflict_name name stem sfx k] ∈ fs) :
    find_free_aux fs dir name stem sfx k (fuel + 1) =
      find_free_aux fs dir name stem sfx (k + 1) fuel := by
  rw [find_free_aux, if_pos h]

/-- If some candidate within the fuel budget is free, the returned target is
free: the loop only stops at a nonexistent path. -/
theorem find_free_aux_not_mem (fs : FS) (dir : FPath) (name stem sfx : String) :
    ∀ (fuel k : Nat),
      (∃ j, j ≤ fuel ∧ dir ++ [conflict_name name stem sfx (k + j)] ∉ fs) →
      find_free_aux fs dir name stem sfx k fuel ∉ fs
  | 0, k, h => by
    obtain ⟨j, hj, hfree⟩ := h
    interval_cases j
    simpa [find_free_aux] using hfree
  | fuel + 1, k, h => by
    by_cases hk : dir ++ [conflict_name name stem sfx k] ∈ fs
    · rw [find_free_aux_step fs dir name stem sfx k fuel hk]
      obtain ⟨j, hj, hfree⟩ := h
      have hj0 : j ≠ 0 := by
        rintro rfl
        simp only [Nat.add_zero] at hfree
        exact hfree hk
      exact find_free_aux_not_mem fs dir name stem sfx fuel (k + 1)
        ⟨j - 1, by omega, by
          have : k + 1 + (j - 1) = k + j := by omega
          rw [this]; exact hfree⟩
    · rw [find_free_aux_of_not_mem fs dir name stem sfx k fuel hk]
      exact hk

theorem string_append_data (a b : String) : (a ++ b).data = a.data ++ b.data := rfl

theorem string_append_assoc (a b c : String) : a ++ b ++ c = a ++ (b ++ c) :=
  congrArg String.mk (List.append_assoc a.data b.data c.data)

/-- The stem and the suffix concatenate back to the name. -/
theorem split_stem_suffix_concat (name : String) :
    (split_stem_suffix name).1 ++ (split_stem_suffix name).2 = name := by
  unfold split_stem_suffix
  dsimp only
  split
  · split
    · show (⟨(name.data.take _) ++ (name.data.drop _)⟩ : String) = name
      rw [List.take_append_drop]
    · show (⟨name.data ++ []⟩ : String) = name
      rw [List.append_nil]
  · show (⟨name.data ++ []⟩ : String) = name
    rw [List.append_nil]

theorem conflict_name_one (name stem sfx : String) :
    conflict_name name stem sfx 1 = stem ++ "_1" ++ sfx := by
  show stem ++ "_" ++ toString 1 ++ sfx = stem ++ "_1" ++ sfx
  rw [string_append_assoc stem "_" (toString 1)]
  rfl

theorem conflict_name_two (name stem sfx : String) :
    conflict_name name stem sfx 2 = stem ++ "_2" ++ sfx := by
  show stem ++ "_" ++ toString 2 ++ sfx = stem ++ "_2" ++ sfx
  rw [string_append_assoc stem "_" (toString 2)]
  rfl

/-- The first renamed candidate is two characters longer than the name, so
they are distinct files. -/
theorem name_ne_conflict_one (name stem sfx : String)
    (hsp : split_stem_suffix name = (stem, sfx)) :
    name ≠ stem ++ "_1" ++ sfx := by
  intro h
  have hc := split_stem_suffix_concat name
  rw [hsp] at hc
  dsimp only at hc
  rw [← hc] at h
  have hlen := congrArg (fun s : String => s.data.length) h
  simp only [string_append_data, List.length_append, List.length_cons,
    List.length_nil] at hlen
  omega

theorem two_mem_le_length {α : Type _} {a b : α} {l : List α}
    (ha : a ∈ l) (hb : b ∈ l) (hne : a ≠ b) : 2 ≤ l.length := by
  induction l with
  | nil => cases ha
  | cons x xs ih =>
    simp only [List.mem_cons] at ha hb
    simp only [List.length_cons]
    rcases ha with rfl | ha
    · rcases hb with rfl | hb
      · exact absurd rfl hne
      · have := List.length_pos.mpr (List.ne_nil_of_mem hb)
        omega
    · have := List.length_pos.mpr (List.ne_nil_of_mem ha)
      omega

/-- First collision: `X` occupied, `X_1` free, the loop answers `X_1`. -/
theorem find_free_target_collision_one (fs : FS) (dir : FPath)
    (name stem sfx : String) (hsp : split_stem_suffix name = (stem, sfx))
    (h0 : dir ++ [name] ∈ fs) (h1 : dir ++ [stem ++ "_1" ++ sfx] ∉ fs) :
    find_free_target fs dir name = dir ++ [stem ++ "_1" ++ sfx] := by
  unfold find_free_target
  dsimp only
  rw [hsp]
  dsimp only
  obtain ⟨L, hL⟩ : ∃ L, fs.length = L + 1 :=
    ⟨fs.length - 1, by have := List.length_pos.mpr (List.ne_nil_of_mem h0); omega⟩
  rw [hL]
  rw [find_free_aux_step fs dir name stem sfx 0 (L + 1) h0]
  rw [show (0 + 1 : Nat) = 1 from rfl]
  rw [find_free_aux_of_not_mem fs dir name stem sfx 1 L
    (by rw [conflict_name_one]; exact h1)]
  rw [conflict_name_one]

/-- Second collision: `X` and `X_1` occupied, `X_2` free, the loop answers
`X_2`. -/
theorem find_free_target_collision_two (fs : FS) (dir : FPath)
    (name stem sfx : String) (hsp : split_stem_suffix name = (stem, sfx))
    (h0 : dir ++ [name] ∈ fs) (h1 : dir ++ [stem ++ "_1" ++ sfx] ∈ fs)
    (h2 : dir ++ [stem ++ "_2" ++ sfx] ∉ fs) :
    find_free_target fs dir name = dir ++ [stem ++ "_2" ++ sfx] := by
  have hne : dir ++ [name] ≠ dir ++ [stem ++ "_1" ++ sfx] := by
    intro h
    have h' : name = stem ++ "_1" ++ sfx := by
      have := List.append_cancel_left h
      simpa using this
    exact name_ne_conflict_one name stem sfx hsp h'
  have hlen : 2 ≤ fs.length := two_mem_le_length h0 h1 hne
  obtain ⟨L, hL⟩ : ∃ L, fs.length = L + 2 := ⟨fs.length - 2, by omega⟩
  unfold find_free_target
  dsimp only
  rw [hsp]
  dsimp only
  rw [hL]
  rw [show L + 2 + 1 = (L + 1) + 1 + 1 from rfl]
  rw [find_free_aux_step fs dir name stem sfx 0 ((L + 1) + 1) h0]
  rw [show (0 + 1 : Nat) = 1 from rfl]
  rw [find_free_aux_step fs dir name stem sfx 1 (L + 1)
    (by rw [conflict_name_one]; exact h1)]
  rw [show (1 + 1 : Nat) = 2 from rfl]
  rw [find_free_aux_of_not_mem fs dir name stem sfx 2 L
    (by rw [conflict_name_two]; exact h2)]
  rw [conflict_name_two]

/-- Whenever some candidate within the fuel budget is free, the resolved
target is not an existing file. -/
theorem find_free_target_not_mem (fs : FS) (dir : FPath) (name : String)
    (h : ∃ j, j ≤ fs.length + 1 ∧ dir ++ [conflict_name name
      (split_stem_suffix name).1 (split_stem_suffix name).2 j] ∉ fs) :
    find_free_target fs dir name ∉ fs := by
  unfold find_free_target
  dsimp only
  exact find_free_aux_not_mem fs dir name _ _ (fs.length + 1) 0 (by simpa using h)

/-- C4: a live move into a directory that already holds a file of the same
name renames the newcomer to `X_1` (counter inserted before the extension),
a third such move yields `X_2`, and the resolved target is never an
existing file — no file already on disk is overwritten or lost by the
move. -/
theorem collision_renaming_appends_counter :
    (∀ (fs : FS) (src dir : FPath) (name stem sfx : String),
       split_stem_suffix name = (stem, sfx) → fileName src = name →
       dir ++ [name] ∈ fs → dir ++ [stem ++ "_1" ++ sfx] ∉ fs →
       (move_file fs src dir false).2.2 = dir ++ [stem ++ "_1" ++ sfx] ∧
       (move_file fs src dir false).2.1 =
         fsMove fs src (dir ++ [stem ++ "_1" ++ sfx])) ∧
    (∀ (fs : FS) (src dir : FPath) (name stem sfx : String),
       split_stem_suffix name = (stem, sfx) → fileName src = name →
       dir ++ [name] ∈ fs → dir ++ [stem ++ "_1" ++ sfx] ∈ fs →
       dir ++ [stem ++ "_2" ++ sfx] ∉ fs →
       (move_file fs src dir false).2.2 = dir ++ [stem ++ "_2" ++ sfx]) ∧
    (∀ (fs : FS) (src dir : FPath),
       (∃ j, j ≤ fs.length + 1 ∧ dir ++ [conflict_name (fileName src)
         (split_stem_suffix (fileName src)).1
         (split_stem_suffix (fileName src)).2 j] ∉ fs) →
       (move_file fs src dir false).2.2 ∉ fs ∧
       ∀ p ∈ fs, p ≠ src → p ∈ (move_file fs src dir false).2.1) := by
  refine ⟨?_, ?_, ?_⟩
  · intro fs src dir name stem sfx hsp hname h0 h1
    have ht := find_free_target_collision_one fs dir name stem sfx hsp h0 h1
    constructor
    · simp [move_file, hname, ht]
    · simp [move_file, hname, ht]
  · intro fs src dir name stem sfx hsp hname h0 h1 h2
    have ht := find_free_target_collision_two fs dir name stem sfx hsp h0 h1 h2
    simp [move_file, hname, ht]
  · intro fs src dir h
    have ht := find_free_target_not_mem fs dir (fileName src) h
    refine ⟨by simpa [move_file] using ht, ?_⟩
    intro p hp hne
    simp only [move_file, Bool.false_eq_true, if_false]
    exact List.mem_cons_of_mem _ ((List.mem_erase_of_ne hne).mpr hp)

/-- Witness for C4 at concrete inputs: `t/X.txt` occupied gives `t/X_1.txt`;
with `t/X_1.txt` also occupied gives `t/X_2.txt`; the target is fresh. -/
theorem collision_renaming_appends_counter_witness :
    ((move_file [["t", "X.txt"]] ["s", "X.txt"] ["t"] false).2.2 = ["t", "X_1.txt"]) ∧
    ((move_file [["t", "X.txt"], ["t", "X_1.txt"]] ["s", "X.txt"] ["t"] false).2.2 =
      ["t", "X_2.txt"]) ∧
    ((move_file [["t", "X.txt"]] ["s", "X.txt"] ["t"] false).2.2 ∉
      ([["t", "X.txt"]] : FS)) := by
  refine ⟨?_, ?_, ?_⟩
  · have h := (collision_renaming_appends_counter.1 [["t", "X.txt"]] ["s", "X.txt"] ["t"]
      "X.txt" "X" ".txt" (by decide) (by decide) (by decide) (by decide)).1
    simpa using h
  · have h := collision_renaming_appends_counter.2.1 [["t", "X.txt"], ["t", "X_1.txt"]]
      ["s", "X.txt"] ["t"] "X.txt" "X" ".txt" (by decide) (by decide) (by decide)
      (by decide) (by decide)
    simpa using h
  · have h := (collision_renaming_appends_counter.2.2 [["t", "X.txt"]] ["s", "X.txt"] ["t"]
      ⟨1, by decide, by decide⟩).1
    simpa using h

/-- The restored-id list of one undo iteration either stays put or gains
exactly that record's id. -/
theorem undoStep_restored (d : Bool) (st : UndoState) (r : FileRecord) :
    (undoStep d st r).restored_ids = st.restored_ids ∨
    (undoStep d st r).restored_ids = st.restored_ids ++ [r.id] := by
  unfold undoStep
  split
  · exact Or.inl rfl
  · split
    · exact Or.inl rfl
    · split
      · exact Or.inl rfl
      · exact Or.inr rfl

theorem foldl_undoStep_restored_sub (d : Bool) (files : List FileRecord) :
    ∀ (st : UndoState) (id : Nat),
      id ∈ (files.foldl (undoStep d) st).restored_ids →
      id ∈ st.restored_ids ∨ ∃ r ∈ files, r.id = id := by
  induction files with
  | nil => intro st id h; exact Or.inl h
  | cons f fsr ih =>
    intro st id h
    rcases ih _ id h with h' | ⟨r, hr, hid⟩
    · rcases undoStep_restored d st f with he | he
      · rw [he] at h'
        exact Or.inl h'
      · rw [he] at h'
        rcases List.mem_append.mp h' with h'' | h''
        · exact Or.inl h''
        · refine Or.inr ⟨f, List.mem_cons_self f fsr, ?_⟩
          simp only [List.mem_singleton] at h''
          exact h''.symm
    · exact Or.inr ⟨r, List.mem_cons_of_mem f hr, hid⟩

/-- C3: in a live undo, a record whose tracked `new_path` is gone, or whose
`original_path` is occupied, is counted as an error and skipped with the
filesystem untouched (nothing overwritten) and its id not recorded; a
record's id is recorded only together with its successful restore move;
after the loop the store keeps exactly the records whose id was not
restored — i.e. the batch delete removes the restored ids only, so failed
records remain; and every restored id belongs to a record of the
operation. -/
theorem undo_errors_skip_and_batch_delete :
    (∀ (st : UndoState) (r : FileRecord), r.new_path ∉ st.fs →
       undoStep false st r =
         { st with stats := { st.stats with errors := st.stats.errors + 1 } }) ∧
    (∀ (st : UndoState) (r : FileRecord), r.new_path ∈ st.fs →
       r.original_path ∈ st.fs →
       undoStep false st r =
         { st with stats := { st.stats with errors := st.stats.errors + 1 } }) ∧
    (∀ (st : UndoState) (r : FileRecord), r.new_path ∈ st.fs →
       r.original_path ∉ st.fs →
       undoStep false st r =
         { fs := fsMove st.fs r.new_path r.original_path,
           restored_ids := st.restored_ids ++ [r.id],
           stats := { st.stats with
             files_restored := st.stats.files_restored + 1 } }) ∧
    (∀ (opid : String) (fs : FS) (db : DB),
       (undo_operation opid false fs db).2.2.records =
         db.records.filter (fun rec => decide (rec.id ∉
           (undoLoop false fs (get_operation_files opid db)).restored_ids))) ∧
    (∀ (fs : FS) (files : List FileRecord) (id : Nat),
       id ∈ (undoLoop false fs files).restored_ids → ∃ r ∈ files, r.id = id) := by
  refine ⟨?_, ?_, ?_, ?_, ?_⟩
  · intro st r h
    unfold undoStep
    rw [if_pos h]
  · intro st r h h'
    unfold undoStep
    rw [if_neg (by simpa using h), if_pos h']
  · intro st r h h'
    unfold undoStep
    rw [if_neg (by simpa using h), if_neg h']
    rfl
  · intro opid fs db
    by_cases hf : (get_operation_files opid db).isEmpty
    · rw [List.isEmpty_iff] at hf
      simp [undo_operation, hf, undoLoop, List.filter_eq_self]
    · simp only [undo_operation, hf, Bool.false_eq_true, if_false, Bool.not_false,
        Bool.true_and]
      by_cases hr : (undoLoop false fs (get_operation_files opid db)).restored_ids.isEmpty
      · rw [List.isEmpty_iff] at hr
        simp [hr, List.filter_eq_self]
      · simp [hr, delete_records]
  · intro fs files id h
    rcases foldl_undoStep_restored_sub false files _ id h with h' | h'
    · simp at h'
    · exact h'

/-- Witness for C3 at concrete records: missing new path and occupied
original count as errors and change nothing; a restorable record is moved
and its id recorded; the batch delete leaves non-restored records. -/
theorem undo_errors_skip_and_batch_delete_witness :
    ((⟨5, ["o"], ["n"], "n", 1, "documents", "c", "m", "h", 0, "op"⟩ :
        FileRecord).new_path ∉ ([] : FS)) ∧
    (undoStep false ⟨[], [], ⟨0, 0⟩⟩
        ⟨5, ["o"], ["n"], "n", 1, "documents", "c", "m", "h", 0, "op"⟩ =
      ⟨[], [], ⟨0, 1⟩⟩) ∧
    (undoStep false ⟨[["n"], ["o"]], [], ⟨0, 0⟩⟩
        ⟨5, ["o"], ["n"], "n", 1, "documents", "c", "m", "h", 0, "op"⟩ =
      ⟨[["n"], ["o"]], [], ⟨0, 1⟩⟩) ∧
    (undoStep false ⟨[["n"]], [], ⟨0, 0⟩⟩
        ⟨5, ["o"], ["n"], "n", 1, "documents", "c", "m", "h", 0, "op"⟩ =
      ⟨[["o"]], [5], ⟨1, 0⟩⟩) ∧
    ((undo_operation "op" false [["n"]]
        ⟨6, 1, [⟨5, ["o"], ["n"], "n", 1, "documents", "c", "m", "h", 0, "op"⟩]⟩).2.2.records = []) ∧
    (∃ r ∈ [(⟨5, ["o"], ["n"], "n", 1, "documents", "c", "m", "h", 0, "op"⟩ :
        FileRecord)], r.id = 5) := by
  refine ⟨by decide, ?_, ?_, ?_, ?_, ?_⟩
  · have h := undo_errors_skip_and_batch_delete.1 ⟨[], [], ⟨0, 0⟩⟩
      ⟨5, ["o"], ["n"], "n", 1, "documents", "c", "m", "h", 0, "op"⟩ (by decide)
    rw [h]
  · have h := undo_errors_skip_and_batch_delete.2.1 ⟨[["n"], ["o"]], [], ⟨0, 0⟩⟩
      ⟨5, ["o"], ["n"], "n", 1, "documents", "c", "m", "h", 0, "op"⟩ (by decide) (by decide)
    rw [h]
  · have h := undo_errors_skip_and_batch_delete.2.2.1 ⟨[["n"]], [], ⟨0, 0⟩⟩
      ⟨5, ["o"], ["n"], "n", 1, "documents", "c", "m", "h", 0, "op"⟩ (by decide) (by decide)
    rw [h]
    decide
  · have h := undo_errors_skip_and_batch_delete.2.2.2.1 "op" [["n"]]
      ⟨6, 1, [⟨5, ["o"], ["n"], "n", 1, "documents", "c", "m", "h", 0, "op"⟩]⟩
    rw [h]
    decide
  · exact undo_errors_skip_and_batch_delete.2.2.2.2 [["n"]]
      [⟨5, ["o"], ["n"], "n", 1, "documents", "c", "m", "h", 0, "op"⟩] 5 (by decide)

/-- A live, tracked iteration that is not skipped, has no duplicate in the
store and whose move succeeds: the file moves to the resolved target and
one record is inserted under the run's operation id. -/
theorem processFile_live_success (bd c r : Bool) (out : FPath) (opid : String)
    (st : OrgState) (f : SourceFile)
    (hskip : List.isPrefixOf out f.path.dropLast = false)
    (hdup : get_duplicate (f.hashResult.getD "") st.db = none)
    (hfail : f.moveFails = false) :
    processFile ⟨bd, false, true, c, r⟩ out (some opid) st f =
      { fs := fsMove st.fs f.path (find_free_target st.fs
          (build_organized_path out (get_file_category (fileName f.path)) f.year f.month bd)
          (fileName f.path)),
        db := (insert_file_record
          { original_path := f.path,
            new_path := find_free_target st.fs
              (build_organized_path out (get_file_category (fileName f.path)) f.year f.month bd)
              (fileName f.path),
            file_name := fileName f.path,
            file_size := f.file_size,
            file_type := get_file_category (fileName f.path),
            created_at := f.created_at,
            modified_at := f.modified_at,
            sha256_hash := f.hashResult.getD "",
            operation_id := opid } st.db).2,
        stats := { st.stats with files_processed := st.stats.files_processed + 1,
                                 files_moved := st.stats.files_moved + 1 },
        moves := st.moves ++ [(f.path, find_free_target st.fs
          (build_organized_path out (get_file_category (fileName f.path)) f.year f.month bd)
          (fileName f.path))] } := by
  unfold processFile
  dsimp only
  rw [if_neg (by simp [hskip])]
  simp only [Bool.or_true, if_true, Bool.and_true]
  have hnone : (if (c && f.hashResult.isSome) = true
      then get_duplicate (f.hashResult.getD "") st.db else none) = none := by
    by_cases hc : (c && f.hashResult.isSome) = true
    · rw [if_pos hc]; exact hdup
    · rw [if_neg hc]
  rw [hnone]
  simp [hfail]

/-- A list is a permutation of the move-back result: putting a member in
front of the list with it erased. -/
theorem perm_cons_erase_fpath {l : List FPath} {a : FPath} (h : a ∈ l) :
    (a :: l.erase a).Perm l := by
  induction l with
  | nil => cases h
  | cons x xs ih =>
    rcases List.mem_cons.mp h with hax | hmem
    · subst hax
      rw [List.erase_cons_head]
    · by_cases hx : x = a
      · subst hx
        rw [List.erase_cons_head]
      · rw [List.erase_cons_tail (by simp [hx])]
        exact (List.Perm.swap x a (xs.erase a)).trans ((ih hmem).cons x)

/-- C1: organize one file in a live tracked run, then immediately undo that
run's operation id: the file is moved back (the filesystem is a permutation
of the original), the tracking record is deleted, and a second undo of the
same now-stale operation id is a no-op reporting zero restored and zero
errors. -/
theorem organize_then_undo_roundtrip
    (out : FPath) (f : SourceFile) (fs : FS) (db : DB) (opid : String)
    (bd c r : Bool)
    (hmem : f.path ∈ fs) (hnd : fs.Nodup)
    (hskip : List.isPrefixOf out f.path.dropLast = false)
    (hdup : get_duplicate (f.hashResult.getD "") db = none)
    (hfail : f.moveFails = false)
    (htgt : build_organized_path out (get_file_category (fileName f.path)) f.year f.month bd
      ++ [fileName f.path] ∉ fs)
    (hop : ∀ rec ∈ db.records, rec.operation_id ≠ opid)
    (hid : ∀ rec ∈ db.records, rec.id ≠ db.nextId)
    (u1 : UndoStats × FS × DB)
    (hu1 : u1 = undo_operation opid false
      (organize_files true [f] out ⟨bd, false, true, c, r⟩ opid fs db).fs
      (organize_files true [f] out ⟨bd, false, true, c, r⟩ opid fs db).db) :
    u1.1 = ⟨1, 0⟩ ∧ u1.2.1.Perm fs ∧ u1.2.2.records = db.records ∧
    undo_operation opid false u1.2.1 u1.2.2 = (⟨0, 0⟩, u1.2.1, u1.2.2) := by
  -- names for the resolved target and the inserted record
  have hfree : find_free_target fs
      (build_organized_path out (get_file_category (fileName f.path)) f.year f.month bd)
      (fileName f.path) =
      build_organized_path out (get_file_category (fileName f.path)) f.year f.month bd
        ++ [fileName f.path] := by
    unfold find_free_target
    dsimp only
    exact find_free_aux_of_not_mem _ _ _ _ _ 0 _ htgt
  -- the organize run
  have hres : organize_files true [f] out ⟨bd, false, true, c, r⟩ opid fs db =
      ⟨⟨1, 1, 0, 0, 0⟩,
       fsMove fs f.path (build_organized_path out (get_file_category (fileName f.path))
         f.year f.month bd ++ [fileName f.path]),
       ⟨db.nextId + 1, db.clock + 1, db.records ++
         [⟨db.nextId, f.path,
           build_organized_path out (get_file_category (fileName f.path)) f.year f.month bd
             ++ [fileName f.path],
           fileName f.path, f.file_size, get_file_category (fileName f.path),
           f.created_at, f.modified_at, f.hashResult.getD "", db.clock, opid⟩]⟩,
       [(f.path, build_organized_path out (get_file_category (fileName f.path))
         f.year f.month bd ++ [fileName f.path])]⟩ := by
    unfold organize_files
    rw [if_neg (by decide)]
    dsimp only
    simp only [List.foldl_cons, List.foldl_nil]
    rw [show (if (true && !false) = true then some opid else none) = some opid from rfl]
    rw [processFile_live_success bd c r out opid ⟨fs, db, ⟨0, 0, 0, 0, 0⟩, []⟩ f hskip hdup hfail]
    dsimp only
    rw [hfree]
    simp [insert_file_record]
  rw [hres] at hu1
  dsimp only at hu1
  -- record and intermediate store used below
  have hne : f.path ≠ build_organized_path out (get_file_category (fileName f.path))
      f.year f.month bd ++ [fileName f.path] := fun h => htgt (h ▸ hmem)
  have hfiles1 : get_operation_files opid
      (⟨db.nextId + 1, db.clock + 1, db.records ++
        [⟨db.nextId, f.path,
          build_organized_path out (get_file_category (fileName f.path)) f.year f.month bd
            ++ [fileName f.path],
          fileName f.path, f.file_size, get_file_category (fileName f.path),
          f.created_at, f.modified_at, f.hashResult.getD "", db.clock, opid⟩]⟩ : DB) =
      [⟨db.nextId, f.path,
        build_organized_path out (get_file_category (fileName f.path)) f.year f.month bd
          ++ [fileName f.path],
        fileName f.path, f.file_size, get_file_category (fileName f.path),
        f.created_at, f.modified_at, f.hashResult.getD "", db.clock, opid⟩] := by
    unfold get_operation_files
    dsimp only
    rw [List.filter_append]
    have h1 : db.records.filter (fun rec => decide (rec.operation_id = opid)) = [] :=
      List.filter_eq_nil.mpr (fun rec hr => by simp [hop rec hr])
    rw [h1]
    simp
  -- the undo loop restores the file
  have hstep : undoStep false
      ⟨fsMove fs f.path (build_organized_path out (get_file_category (fileName f.path))
        f.year f.month bd ++ [fileName f.path]), [], ⟨0, 0⟩⟩
      ⟨db.nextId, f.path,
        build_organized_path out (get_file_category (fileName f.path)) f.year f.month bd
          ++ [fileName f.path],
        fileName f.path, f.file_size, get_file_category (fileName f.path),
        f.created_at, f.modified_at, f.hashResult.getD "", db.clock, opid⟩ =
      ⟨f.path :: fs.erase f.path, [db.nextId], ⟨1, 0⟩⟩ := by
    unfold undoStep
    rw [if_neg (fun hc => hc (List.mem_cons_self _ _))]
    rw [if_neg ?horig]
    case horig =>
      dsimp only
      intro hcon
      rcases List.mem_cons.mp hcon with h | h
      · exact hne h
      · exact ((List.Nodup.mem_erase_iff hnd).mp h).1 rfl
    dsimp only [fsMove]
    rw [List.erase_cons_head]
    rfl
  have hu1' : u1 = (⟨1, 0⟩, f.path :: fs.erase f.path,
      (⟨db.nextId + 1, db.clock + 1, db.records⟩ : DB)) := by
    rw [hu1]
    unfold undo_operation
    rw [hfiles1]
    dsimp only [List.isEmpty_cons, undoLoop]
    simp only [List.foldl_cons, List.foldl_nil]
    rw [hstep]
    simp only [Bool.false_eq_true, if_false, Bool.not_false, List.isEmpty_cons,
      Bool.and_self, if_true, delete_records]
    have h2 : (db.records ++
        ([⟨db.nextId, f.path,
          build_organized_path out (get_file_category (fileName f.path)) f.year f.month bd
            ++ [fileName f.path],
          fileName f.path, f.file_size, get_file_category (fileName f.path),
          f.created_at, f.modified_at, f.hashResult.getD "", db.clock, opid⟩] :
          List FileRecord)).filter
        (fun rec => decide (rec.id ∉ [db.nextId])) = db.records := by
      rw [List.filter_append]
      have ha : db.records.filter (fun rec => decide (rec.id ∉ [db.nextId])) = db.records :=
        List.filter_eq_self.mpr (fun rec hr => by simp [hid rec hr])
      rw [ha]
      simp
    rw [h2]
  -- second undo is a no-op
  have hfiles2 : get_operation_files opid (⟨db.nextId + 1, db.clock + 1, db.records⟩ : DB) = [] := by
    unfold get_operation_files
    dsimp only
    exact List.filter_eq_nil.mpr (fun rec hr => by simp [hop rec hr])
  refine ⟨by rw [hu1'], ?_, by rw [hu1'], ?_⟩
  · rw [hu1']
    dsimp only
    exact perm_cons_erase_fpath hmem
  · rw [hu1']
    unfold undo_operation
    rw [hfiles2]
    rfl

/-- Witness for C1 at a concrete input: one file `home/a.txt` organized into
`organized/documents/2024/03/a.txt` and tracked, then undone twice. -/
theorem organize_then_undo_roundtrip_witness :
    (undo_operation "op1" false
      (organize_files true [⟨["home", "a.txt"], some "h1", 5, "c", "m", 2024, 3, false⟩]
        ["organized"] ⟨true, false, true, true, false⟩ "op1" [["home", "a.txt"]] ⟨0, 0, []⟩).fs
      (organize_files true [⟨["home", "a.txt"], some "h1", 5, "c", "m", 2024, 3, false⟩]
        ["organized"] ⟨true, false, true, true, false⟩ "op1" [["home", "a.txt"]] ⟨0, 0, []⟩).db).1 = ⟨1, 0⟩ ∧
    (undo_operation "op1" false
      (organize_files true [⟨["home", "a.txt"], some "h1", 5, "c", "m", 2024, 3, false⟩]
        ["organized"] ⟨true, false, true, true, false⟩ "op1" [["home", "a.txt"]] ⟨0, 0, []⟩).fs
      (organize_files true [⟨["home", "a.txt"], some "h1", 5, "c", "m", 2024, 3, false⟩]
        ["organized"] ⟨true, false, true, true, false⟩ "op1" [["home", "a.txt"]] ⟨0, 0, []⟩).db).2.1.Perm [["home", "a.txt"]] ∧
    (undo_operation "op1" false
      (organize_files true [⟨["home", "a.txt"], some "h1", 5, "c", "m", 2024, 3, false⟩]
        ["organized"] ⟨true, false, true, true, false⟩ "op1" [["home", "a.txt"]] ⟨0, 0, []⟩).fs
      (organize_files true [⟨["home", "a.txt"], some "h1", 5, "c", "m", 2024, 3, false⟩]
        ["organized"] ⟨true, false, true, true, false⟩ "op1" [["home", "a.txt"]] ⟨0, 0, []⟩).db).2.2.records = [] ∧
    undo_operation "op1" false
      (undo_operation "op1" false
      (organize_files true [⟨["home", "a.txt"], some "h1", 5, "c", "m", 2024, 3, false⟩]
        ["organized"] ⟨true, false, true, true, false⟩ "op1" [["home", "a.txt"]] ⟨0, 0, []⟩).fs
      (organize_files true [⟨["home", "a.txt"], some "h1", 5, "c", "m", 2024, 3, false⟩]
        ["organized"] ⟨true, false, true, true, false⟩ "op1" [["home", "a.txt"]] ⟨0, 0, []⟩).db).2.1
      (undo_operation "op1" false
      (organize_files true [⟨["home", "a.txt"], some "h1", 5, "c", "m", 2024, 3, false⟩]
        ["organized"] ⟨true, false, true, true, false⟩ "op1" [["home", "a.txt"]] ⟨0, 0, []⟩).fs
      (organize_files true [⟨["home", "a.txt"], some "h1", 5, "c", "m", 2024, 3, false⟩]
        ["organized"] ⟨true, false, true, true, false⟩ "op1" [["home", "a.txt"]] ⟨0, 0, []⟩).db).2.2 =
      (⟨0, 0⟩,
       (undo_operation "op1" false
      (organize_files true [⟨["home", "a.txt"], some "h1", 5, "c", "m", 2024, 3, false⟩]
        ["organized"] ⟨true, false, true, true, false⟩ "op1" [["home", "a.txt"]] ⟨0, 0, []⟩).fs
      (organize_files true [⟨["home", "a.txt"], some "h1", 5, "c", "m", 2024, 3, false⟩]
        ["organized"] ⟨true, false, true, true, false⟩ "op1" [["home", "a.txt"]] ⟨0, 0, []⟩).db).2.1,
       (undo_operation "op1" false
      (organize_files true [⟨["home", "a.txt"], some "h1", 5, "c", "m", 2024, 3, false⟩]
        ["organized"] ⟨true, false, true, true, false⟩ "op1" [["home", "a.txt"]] ⟨0, 0, []⟩).fs
      (organize_files true [⟨["home", "a.txt"], some "h1", 5, "c", "m", 2024, 3, false⟩]
        ["organized"] ⟨true, false, true, true, false⟩ "op1" [["home", "a.txt"]] ⟨0, 0, []⟩).db).2.2) := by
  exact organize_then_undo_roundtrip ["organized"]
    ⟨["home", "a.txt"], some "h1", 5, "c", "m", 2024, 3, false⟩
    [["home", "a.txt"]] ⟨0, 0, []⟩ "op1" true true false
    (by decide) (by decide) (by decide) (by decide) rfl (by decide)
    (by intro rec hr; cases hr) (by intro rec hr; cases hr) _ rfl

/-! ### Prediction lemmas -/

/-- A fold that always keeps either the accumulator or the new element ends
inside the candidates. -/
theorem foldl_best_mem {α : Type _} (f : α → α → α)
    (hf : ∀ a b, f a b = a ∨ f a b = b) :
    ∀ (xs : List α) (x : α), xs.foldl f x ∈ x :: xs := by
  intro xs
  induction xs with
  | nil => intro x; exact List.mem_singleton_self x
  | cons y ys ih =>
    intro x
    simp only [List.foldl_cons]
    rcases hf x y with he | he <;> rw [he]
    · rcases List.mem_cons.mp (ih x) with h | h
      · rw [h]
        exact List.mem_cons_self _ _
      · exact List.mem_cons_of_mem _ (List.mem_cons_of_mem _ h)
    · exact List.mem_cons_of_mem _ (ih y)

/-- `most_common(1)` returns an element of the counter. -/
theorem most_common1_mem {c : DCounter} {x : String × Nat}
    (h : most_common1 c = some x) : x ∈ c := by
  cases c with
  | nil => cases h
  | cons a as =>
    simp only [most_common1, Option.some.injEq] at h
    rw [← h]
    exact foldl_best_mem _
      (fun p q => by
        split
        · exact Or.inr rfl
        · exact Or.inl rfl) as a

/-- Any count in the counter is at most the counter's total. -/
theorem count_le_total {c : DCounter} {x : String × Nat} (h : x ∈ c) :
    x.2 ≤ counterTotal c := by
  induction c with
  | nil => cases h
  | cons a as ih =>
    rcases List.mem_cons.mp h with rfl | h
    · simp only [counterTotal, List.map_cons, List.sum_cons]
      omega
    · have := ih h
      simp only [counterTotal, List.map_cons, List.sum_cons]
      simp only [counterTotal] at this
      omega

/-- With positive counts, a fired signal's local confidence is in `[0, 1]`
and it carries the strategy's weight. -/
theorem signal_from_bounds {counts : DCounter} {w : ℚ}
    {mk : String → Nat → Nat → String} {sig : Signal}
    (hpos : ∀ dc ∈ counts, 0 < dc.2)
    (h : signal_from counts w mk = some sig) :
    0 ≤ sig.confidence ∧ sig.confidence ≤ 1 ∧ sig.weight = w := by
  unfold signal_from at h
  cases hmc : most_common1 counts with
  | none => rw [hmc] at h; cases h
  | some dc =>
    rw [hmc] at h
    obtain ⟨dest, count⟩ := dc
    simp only [Option.some.injEq] at h
    subst h
    have hmem := most_common1_mem hmc
    have hle : count ≤ counterTotal counts := count_le_total hmem
    have hposc : 0 < count := hpos _ hmem
    have hpost : 0 < counterTotal counts := lt_of_lt_of_le hposc hle
    refine ⟨?_, ?_, rfl⟩
    · exact div_nonneg (by positivity) (by positivity)
    · rw [div_le_one (by exact_mod_cast hpost)]
      exact_mod_cast hle

/-- A key found in a table returns one of the table's counters. -/
theorem clookup_mem {t : List (String × DCounter)} {k : String} {cs : DCounter}
    (h : clookup t k = some cs) : ∃ e ∈ t, e.2 = cs := by
  unfold clookup at h
  cases hf : t.find? (fun e => e.1 == k) with
  | none => rw [hf] at h; cases h
  | some e =>
    rw [hf] at h
    simp only [Option.map_some', Option.some.injEq] at h
    exact ⟨e, List.mem_of_find?_eq_some hf, h⟩

/-- All counters of a frequency table hold positive counts (true of every
model produced by training, which only ever increments). -/
def counters_pos (t : List (String × DCounter)) : Prop :=
  ∀ kc ∈ t, ∀ dc ∈ kc.2, 0 < dc.2

/-- The tables read by `predict_destination` hold positive counts. -/
def model_wf (m : FileOrganizationModel) : Prop :=
  counters_pos m.type_to_folder ∧ counters_pos m.ext_to_folder ∧
    counters_pos m.name_pattern_to_folder

/-- Every signal contributed for a well-formed model has a local confidence
in `[0, 1]` and a positive weight. -/
theorem build_signals_bounds {meta : FileMeta} {m : FileOrganizationModel}
    (hwf : model_wf m) :
    ∀ sig ∈ build_signals meta m,
      0 ≤ sig.confidence ∧ sig.confidence ≤ 1 ∧ 0 < sig.weight := by
  intro sig hs
  unfold build_signals at hs
  have hone : ∀ (t : List (String × DCounter)) (k : String) (w : ℚ)
      (mk : String → Nat → Nat → String), counters_pos t → 0 < w →
      sig ∈ (match clookup t k with
             | some cs => (signal_from cs w mk).toList
             | none => ([] : List Signal)) →
      0 ≤ sig.confidence ∧ sig.confidence ≤ 1 ∧ 0 < sig.weight := by
    intro t k w mk hpos hw hmem
    cases hcl : clookup t k with
    | none => simp only [hcl] at hmem; cases hmem
    | some cs =>
      simp only [hcl] at hmem
      cases hsf : signal_from cs w mk with
      | none => simp only [hsf, Option.toList_none] at hmem; cases hmem
      | some s =>
        simp only [hsf, Option.toList_some, List.mem_singleton] at hmem
        subst hmem
        obtain ⟨e, he, rfl⟩ := clookup_mem hcl
        have hb := signal_from_bounds (hpos e he) hsf
        exact ⟨hb.1, hb.2.1, hb.2.2 ▸ hw⟩
  rcases List.mem_append.mp hs with hs' | hs'
  · rcases List.mem_append.mp hs' with hs'' | hs''
    · exact hone m.type_to_folder meta.file_type (1/2) (reason_type meta.file_type)
        hwf.1 (by norm_num) hs''
    · by_cases hext : ((strToLower meta.file_ext).data.isEmpty : Bool) = true
      · simp only [hext, Bool.not_true, Bool.false_eq_true, if_false] at hs''
        cases hs''
      · simp only [Bool.not_eq_true] at hext
        simp only [hext, Bool.not_false, if_true] at hs''
        exact hone m.ext_to_folder (strToLower meta.file_ext) (3/10)
          (reason_ext (strToLower meta.file_ext)) hwf.2.1 (by norm_num) hs''
  · exact hone m.name_pattern_to_folder (extract_filename_pattern meta.file_name) (1/5)
      (reason_name (extract_filename_pattern meta.file_name)) hwf.2.2 (by norm_num) hs'

/-- Invariant of one `destination_scores` entry: the summed weighted
confidence is between 0 and the summed weight, which is positive. -/
def entry_ok (e : ScoreEntry) : Prop :=
  0 ≤ e.total_confidence ∧ e.total_confidence ≤ e.total_weight ∧ 0 < e.total_weight

theorem add_signal_ok {acc : List ScoreEntry} {p : Signal}
    (hacc : ∀ e ∈ acc, entry_ok e)
    (hp : 0 ≤ p.confidence ∧ p.confidence ≤ 1 ∧ 0 < p.weight) :
    ∀ e ∈ add_signal acc p, entry_ok e := by
  intro e he
  obtain ⟨hc0, hc1, hw⟩ := hp
  have hcw0 : 0 ≤ p.confidence * p.weight := mul_nonneg hc0 (le_of_lt hw)
  have hcww : p.confidence * p.weight ≤ p.weight := by
    calc p.confidence * p.weight ≤ 1 * p.weight :=
          mul_le_mul_of_nonneg_right hc1 (le_of_lt hw)
      _ = p.weight := one_mul _
  unfold add_signal at he
  split at he
  · rcases List.mem_map.mp he with ⟨e', he', heq⟩
    have h' := hacc e' he'
    by_cases hd : (e'.dest == p.destination) = true
    · rw [if_pos hd] at heq
      subst heq
      obtain ⟨h1, h2, h3⟩ := h'
      exact ⟨by positivity, by dsimp only; linarith, by dsimp only; linarith⟩
    · rw [if_neg hd] at heq
      subst heq
      exact h'
  · rcases List.mem_append.mp he with h | h
    · exact hacc e h
    · simp only [List.mem_singleton] at h
      subst h
      exact ⟨hcw0, hcww, hw⟩

theorem foldl_add_signal_ok (ps : List Signal)
    (hps : ∀ p ∈ ps, 0 ≤ p.confidence ∧ p.confidence ≤ 1 ∧ 0 < p.weight) :
    ∀ (acc : List ScoreEntry), (∀ e ∈ acc, entry_ok e) →
      ∀ e ∈ ps.foldl add_signal acc, entry_ok e := by
  induction ps with
  | nil => intro acc hacc; exact hacc
  | cons p ps' ih =>
    intro acc hacc
    simp only [List.foldl_cons]
    exact ih (fun q hq => hps q (List.mem_cons_of_mem _ hq)) (add_signal acc p)
      (add_signal_ok hacc (hps p (List.mem_cons_self _ _)))

theorem group_scores_ok {ps : List Signal}
    (hps : ∀ p ∈ ps, 0 ≤ p.confidence ∧ p.confidence ≤ 1 ∧ 0 < p.weight) :
    ∀ e ∈ group_scores ps, entry_ok e :=
  foldl_add_signal_ok ps hps [] (fun _ h => absurd h (List.not_mem_nil _))

/-- `max(..., key=total_confidence)` returns a member of the list. -/
theorem best_score_mem {l : List ScoreEntry} {e : ScoreEntry}
    (h : best_score l = some e) : e ∈ l := by
  cases l with
  | nil => cases h
  | cons x xs =>
    simp only [best_score, Option.some.injEq] at h
    rw [← h]
    exact foldl_best_mem _
      (fun a b => by
        split
        · exact Or.inr rfl
        · exact Or.inl rfl) xs x

/-- The chosen entry has the greatest summed weighted confidence. -/
theorem best_score_max {l : List ScoreEntry} {e : ScoreEntry}
    (h : best_score l = some e) :
    ∀ e' ∈ l, e'.total_confidence ≤ e.total_confidence := by
  cases l with
  | nil => cases h
  | cons x xs =>
    simp only [best_score, Option.some.injEq] at h
    have key : ∀ (ys : List ScoreEntry) (a : ScoreEntry),
        a.total_confidence ≤
          (ys.foldl (fun b e => if e.total_confidence > b.total_confidence then e else b)
            a).total_confidence ∧
        ∀ y ∈ ys, y.total_confidence ≤
          (ys.foldl (fun b e => if e.total_confidence > b.total_confidence then e else b)
            a).total_confidence := by
      intro ys
      induction ys with
      | nil => intro a; exact ⟨le_refl _, fun y hy => absurd hy (List.not_mem_nil _)⟩
      | cons y ys' ih =>
        intro a
        simp only [List.foldl_cons]
        have hstep : a.total_confidence ≤
            (if y.total_confidence > a.total_confidence then y else a).total_confidence := by
          split
          · exact le_of_lt (by assumption)
          · exact le_refl _
        have hstepy : y.total_confidence ≤
            (if y.total_confidence > a.total_confidence then y else a).total_confidence := by
          split
          · exact le_refl _
          · exact le_of_not_lt (by assumption)
        refine ⟨le_trans hstep (ih _).1, ?_⟩
        intro z hz
        rcases List.mem_cons.mp hz with rfl | hz
        · exact le_trans hstepy (ih _).1
        · exact (ih _).2 z hz
    intro e' he'
    rcases List.mem_cons.mp he' with rfl | he'
    · rw [← h]
      exact (key xs e').1
    · rw [← h]
      exact (key xs x).2 e' he'

/-- C6: `predict_destination` returns `None` whenever the model holds fewer
than `MIN_SAMPLES_FOR_PREDICTION = 3` samples, regardless of the input; and
whenever it returns a prediction (for a model whose frequency tables hold
positive counts, as every trained model does), the returned confidence lies
in `[0, 1]`. -/
theorem predict_min_samples_and_confidence_bounds :
    (∀ (meta : FileMeta) (m : FileOrganizationModel),
       m.total_samples < MIN_SAMPLES_FOR_PREDICTION →
       predict_destination meta m = none) ∧
    (∀ (meta : FileMeta) (m : FileOrganizationModel) (dest : String) (conf : ℚ)
       (reason : String), model_wf m →
       predict_destination meta m = some (dest, conf, reason) →
       0 ≤ conf ∧ conf ≤ 1) := by
  constructor
  · intro meta m h
    unfold predict_destination
    rw [if_pos h]
  · intro meta m dest conf reason hwf h
    unfold predict_destination at h
    by_cases hlt : m.total_samples < MIN_SAMPLES_FOR_PREDICTION
    · rw [if_pos hlt] at h
      cases h
    · rw [if_neg hlt] at h
      dsimp only at h
      cases hbs : best_score (group_scores (build_signals meta m)) with
      | none =>
        simp only [hbs] at h
        exact absurd h (by simp)
      | some e =>
        simp only [hbs, Option.some.injEq, Prod.mk.injEq] at h
        obtain ⟨h1, h2, h3⟩ := h
        have hok : entry_ok e :=
          group_scores_ok (build_signals_bounds hwf) e (best_score_mem hbs)
        rw [← h2]
        exact ⟨div_nonneg hok.1 (le_of_lt hok.2.2),
          (div_le_one hok.2.2).mpr hok.2.1⟩

/-- Witness for C6: a two-sample model predicts nothing; the 8-vs-2
documents model predicts with confidence 4/5 ∈ [0, 1]. -/
theorem predict_min_samples_and_confidence_bounds_witness :
    ((⟨[], [], [], [], 2⟩ : FileOrganizationModel).total_samples <
      MIN_SAMPLES_FOR_PREDICTION) ∧
    (predict_destination ⟨"a.txt", "documents", ".txt"⟩ ⟨[], [], [], [], 2⟩ = none) ∧
    model_wf ⟨[("documents", [("Documents", 8), ("Archive", 2)])], [], [], [], 10⟩ ∧
    (0 ≤ (((8 : ℕ) : ℚ) / ((10 : ℕ) : ℚ) * (1/2)) / (1/2) ∧
      (((8 : ℕ) : ℚ) / ((10 : ℕ) : ℚ) * (1/2)) / (1/2) ≤ 1) := by
  refine ⟨by decide, ?_, ?_, ?_⟩
  · exact predict_min_samples_and_confidence_bounds.1 _ _ (by decide)
  · unfold model_wf counters_pos
    refine ⟨by decide, by decide, by decide⟩
  · exact predict_min_samples_and_confidence_bounds.2 ⟨"", "documents", ""⟩
      ⟨[("documents", [("Documents", 8), ("Archive", 2)])], [], [], [], 10⟩
      "Documents" ((((8 : ℕ) : ℚ) / ((10 : ℕ) : ℚ) * (1/2)) / (1/2))
      "Based on 8/10 prior documents files moved to Documents"
      (by unfold model_wf counters_pos; refine ⟨by decide, by decide, by decide⟩)
      rfl

/-- C7: on a model with 10 `documents` records, 8 to `Documents` and 2 to
`Archive`, predicting a `documents` file yields destination `Documents`
with type-signal local confidence 8/10 = 0.8 and final confidence 0.8; in
general a returned prediction's destination carries the greatest summed
weighted confidence among the grouped destinations, and the final
confidence is that destination's summed weighted confidence divided by its
summed weight. -/
theorem predict_weighted_vote_scenario :
    (predict_destination ⟨"", "documents", ""⟩
        ⟨[("documents", [("Documents", 8), ("Archive", 2)])], [], [], [], 10⟩ =
      some ("Documents", 4/5,
        "Based on 8/10 prior documents files moved to Documents")) ∧
    ((signal_from [("Documents", 8), ("Archive", 2)] (1/2)
        (reason_type "documents")).map Signal.confidence = some (4/5)) ∧
    (∀ (meta : FileMeta) (m : FileOrganizationModel) (dest : String) (conf : ℚ)
       (reason : String),
       predict_destination meta m = some (dest, conf, reason) →
       ∃ e ∈ group_scores (build_signals meta m),
         e.dest = dest ∧ conf = e.total_confidence / e.total_weight ∧
         ∀ e' ∈ group_scores (build_signals meta m),
           e'.total_confidence ≤ e.total_confidence) := by
  refine ⟨?_, ?_, ?_⟩
  · have hb : predict_destination ⟨"", "documents", ""⟩
        ⟨[("documents", [("Documents", 8), ("Archive", 2)])], [], [], [], 10⟩ =
        some ("Documents", (((8 : ℕ) : ℚ) / ((10 : ℕ) : ℚ) * (1/2)) / (1/2),
          "Based on 8/10 prior documents files moved to Documents") := rfl
    rw [hb]
    norm_num
  · have hb : (signal_from [("Documents", 8), ("Archive", 2)] (1/2)
        (reason_type "documents")).map Signal.confidence =
        some (((8 : ℕ) : ℚ) / ((10 : ℕ) : ℚ)) := rfl
    rw [hb]
    norm_num
  · intro meta m dest conf reason h
    unfold predict_destination at h
    by_cases hlt : m.total_samples < MIN_SAMPLES_FOR_PREDICTION
    · rw [if_pos hlt] at h
      cases h
    · rw [if_neg hlt] at h
      dsimp only at h
      cases hbs : best_score (group_scores (build_signals meta m)) with
      | none =>
        simp only [hbs] at h
        exact absurd h (by simp)
      | some e =>
        simp only [hbs, Option.some.injEq, Prod.mk.injEq] at h
        obtain ⟨h1, h2, h3⟩ := h
        exact ⟨e, best_score_mem hbs, h1, h2.symm, best_score_max hbs⟩

/-- Witness for C7's general clause at the 8-vs-2 scenario. -/
theorem predict_weighted_vote_scenario_witness :
    (predict_destination ⟨"", "documents", ""⟩
        ⟨[("documents", [("Documents", 8), ("Archive", 2)])], [], [], [], 10⟩ =
      some ("Documents", (((8 : ℕ) : ℚ) / ((10 : ℕ) : ℚ) * (1/2)) / (1/2),
        "Based on 8/10 prior documents files moved to Documents")) ∧
    (∃ e ∈ group_scores (build_signals ⟨"", "documents", ""⟩
        ⟨[("documents", [("Documents", 8), ("Archive", 2)])], [], [], [], 10⟩),
       e.dest = "Documents" ∧
       (((8 : ℕ) : ℚ) / ((10 : ℕ) : ℚ) * (1/2)) / (1/2) =
         e.total_confidence / e.total_weight ∧
       ∀ e' ∈ group_scores (build_signals ⟨"", "documents", ""⟩
           ⟨[("documents", [("Documents", 8), ("Archive", 2)])], [], [], [], 10⟩),
         e'.total_confidence ≤ e.total_confidence) := by
  refine ⟨rfl, ?_⟩
  exact predict_weighted_vote_scenario.2.2 ⟨"", "documents", ""⟩
    ⟨[("documents", [("Documents", 8), ("Archive", 2)])], [], [], [], 10⟩
    "Documents" ((((8 : ℕ) : ℚ) / ((10 : ℕ) : ℚ) * (1/2)) / (1/2))
    "Based on 8/10 prior documents files moved to Documents" rfl
